import Mathlib

/-!
A shallow embedding of `main.go`, the go-vndb client.

The client speaks a sentinel-framed text protocol over one socket: every
command and every reply ends with the byte `0x04`.  This file embeds the
framing helper `trim` and the three operations `Login`, `DBStats` and
`GetVN`, together with models of the library routines they call
(`bufio.Reader.ReadString` / `ReadSlice`, `bytes.TrimPrefix` /
`bytes.TrimRight`, `fmt.Fprintf` / `fmt.Fprint`, `json.Unmarshal`), and
proves the framing and error-handling properties of the client.

Go strings and byte slices are lists of bytes.  The socket is a pair of a
log of the bytes written so far and the bytes the peer will still deliver
before it closes the stream.
-/

namespace GoVNDB

/-! ## Bytes -/

/-- Bytes of an ASCII string literal. -/
def ascii (s : String) : List UInt8 := s.data.map (fun ch => UInt8.ofNat ch.toNat)

/-- The constant END of main.go: the sentinel byte that ends every command and reply. -/
def END : UInt8 := 0x04

/-! ## The socket and the buffered reader -/

/-- Model of the net.Conn behind a Connection: the log of all bytes written to
the socket, and the bytes the peer delivers from now on, after which the
stream ends (EOF).  Writes always succeed and a Read hands over as many of the
pending bytes as the caller has room for. -/
structure Conn where
  written : List UInt8
  incoming : List UInt8
deriving DecidableEq, Repr

/-- Model of Write on the socket: the bytes are appended to the log. -/
def Conn.Write (s : Conn) (p : List UInt8) : Conn :=
  { s with written := s.written ++ p }

/-- The struct Connection of main.go. -/
structure Connection where
  sock : Conn
deriving DecidableEq, Repr

/-- Errors a read through bufio can end with on this transport. -/
inductive ReadError where
  | EOF
  | ErrBufferFull
deriving DecidableEq, Repr

/-- The text of a read error (the method Error). -/
def ReadError.Error : ReadError → List UInt8
  | .EOF => ascii "EOF"
  | .ErrBufferFull => ascii "bufio: buffer full"

/-- Size of the buffer of bufio.NewReader. -/
def defaultBufSize : Nat := 4096

/-- The bytes of a stream up to and including the first delim, and whether
a delim was found; without one, the whole stream. -/
def readUntil (delim : UInt8) : List UInt8 → List UInt8 × Bool
  | [] => ([], false)
  | b :: bs =>
    if b = delim then ([b], true)
    else (b :: (readUntil delim bs).1, (readUntil delim bs).2)

/-- Model of bufio.NewReader(sock).ReadSlice(delim) on a fresh reader: one
buffer of defaultBufSize bytes is filled from the socket; the line up to and
including the first delim in it is returned.  When the buffer fills up
without a delim the call fails with ErrBufferFull, and when the stream ends
first it fails with EOF; in both cases the bytes read so far are returned.
The third component is what is left on the socket (bytes pulled into the
buffer are gone with the reader). -/
def ReadSlice (delim : UInt8) (s : List UInt8) : List UInt8 × Option ReadError × List UInt8 :=
  let buf := s.take defaultBufSize
  let r := readUntil delim buf
  if r.2 then (r.1, none, s.drop defaultBufSize)
  else if defaultBufSize ≤ buf.length then (buf, some .ErrBufferFull, s.drop defaultBufSize)
  else (buf, some .EOF, [])

/-- The loop of bufio.Reader.collectFragments behind ReadString: ReadSlice is
repeated, full buffers being accumulated, until a delim or an error other
than ErrBufferFull.  The fuel bounds the number of buffers; it does not run
out (see ReadString_loop_eq). -/
def ReadString.loop (delim : UInt8) : Nat → List UInt8 → List UInt8 × Option ReadError × List UInt8
  | 0, s => ([], some .EOF, s)
  | n + 1, s =>
    match ReadSlice delim s with
    | (frag, some .ErrBufferFull, rest) =>
      let r := ReadString.loop delim n rest
      (frag ++ r.1, r.2.1, r.2.2)
    | r => r

/-- Model of bufio.NewReader(sock).ReadString(delim) on a fresh reader: the
bytes up to and including the first delim, of any length; when the stream
ends before a delim, the bytes read and EOF. -/
def ReadString (delim : UInt8) (s : List UInt8) : List UInt8 × Option ReadError × List UInt8 :=
  ReadString.loop delim (s.length / defaultBufSize + 1) s

/-! ## bytes.TrimPrefix, bytes.TrimRight and trim -/

/-- Model of bytes.TrimPrefix: s without the leading pre, or s itself when it
does not start with pre. -/
def TrimPrefix (s pre : List UInt8) : List UInt8 :=
  if pre.isPrefixOf s then s.drop pre.length else s

/-- Model of bytes.TrimRight for a cutset of one ASCII byte: every trailing
occurrence of the byte is removed. -/
def TrimRight (s : List UInt8) (c : UInt8) : List UInt8 :=
  (s.reverse.dropWhile (fun b => b == c)).reverse

/-- The function trim of main.go. -/
def trim (r : List UInt8) : List UInt8 :=
  TrimRight (TrimPrefix r (ascii "results ")) END

/-! ## UTF-8 (package unicode/utf8) -/

/-- The rune utf8.RuneError, U+FFFD. -/
def RuneError : Nat := 0xFFFD

/-- Whether b lies in the byte range lo..hi. -/
def inRange (b : UInt8) (lo hi : Nat) : Bool := decide (lo ≤ b.toNat) && decide (b.toNat ≤ hi)

/-- Model of utf8.DecodeRune: the first rune of p and its width in bytes;
(RuneError, 0) on empty input and (RuneError, 1) when the input does not start
with a well-formed encoding. -/
def DecodeRune : List UInt8 → Nat × Nat
  | [] => (RuneError, 0)
  | b0 :: rest =>
    let c0 := b0.toNat
    if c0 < 0x80 then (c0, 1)
    else if inRange b0 0xC2 0xDF then
      match rest with
      | b1 :: _ =>
        if inRange b1 0x80 0xBF then ((c0 % 0x20) * 0x40 + b1.toNat % 0x40, 2) else (RuneError, 1)
      | _ => (RuneError, 1)
    else if inRange b0 0xE0 0xEF then
      let lo := if c0 = 0xE0 then 0xA0 else 0x80
      let hi := if c0 = 0xED then 0x9F else 0xBF
      match rest with
      | b1 :: b2 :: _ =>
        if inRange b1 lo hi && inRange b2 0x80 0xBF then
          ((c0 % 0x10) * 0x1000 + (b1.toNat % 0x40) * 0x40 + b2.toNat % 0x40, 3)
        else (RuneError, 1)
      | _ => (RuneError, 1)
    else if inRange b0 0xF0 0xF4 then
      let lo := if c0 = 0xF0 then 0x90 else 0x80
      let hi := if c0 = 0xF4 then 0x8F else 0xBF
      match rest with
      | b1 :: b2 :: b3 :: _ =>
        if inRange b1 lo hi && inRange b2 0x80 0xBF && inRange b3 0x80 0xBF then
          ((c0 % 0x08) * 0x40000 + (b1.toNat % 0x40) * 0x1000 + (b2.toNat % 0x40) * 0x40
            + b3.toNat % 0x40, 4)
        else (RuneError, 1)
      | _ => (RuneError, 1)
    else (RuneError, 1)

/-- Model of utf8.AppendRune: the UTF-8 encoding of a rune; surrogates and
values above U+10FFFF are encoded as RuneError. -/
def EncodeRune (r : Nat) : List UInt8 :=
  if r < 0x80 then [UInt8.ofNat r]
  else if r < 0x800 then [UInt8.ofNat (0xC0 + r / 0x40), UInt8.ofNat (0x80 + r % 0x40)]
  else if 0x10FFFF < r ∨ (0xD800 ≤ r ∧ r ≤ 0xDFFF) then [0xEF, 0xBF, 0xBD]
  else if r < 0x10000 then
    [UInt8.ofNat (0xE0 + r / 0x1000), UInt8.ofNat (0x80 + r / 0x40 % 0x40),
      UInt8.ofNat (0x80 + r % 0x40)]
  else
    [UInt8.ofNat (0xF0 + r / 0x40000), UInt8.ofNat (0x80 + r / 0x1000 % 0x40),
      UInt8.ofNat (0x80 + r / 0x40 % 0x40), UInt8.ofNat (0x80 + r % 0x40)]

/-! ## fmt.Fprintf

The formatting loop `doPrintf` of package fmt, for operands that are strings.
Literal text, `%%`, the whole directive grammar (flags, `[n]` indexes, width,
precision, `*`) and every directive that finds no operand are modelled
byte for byte.  An operand is written verbatim under the plain verbs `%s` and
`%v`; how package fmt renders a string under any other directive (padding,
quoting, hex, bad verbs) is not modelled: each operand carries that rendering
as an uninterpreted function. -/

/-- A parsed directive: the flag bytes in order, width, precision and verb. -/
structure Directive where
  flags : List UInt8
  wid : Option Nat
  prec : Option Nat
  verb : Nat
deriving DecidableEq, Repr

/-- A directive that is nothing but the verb s or v. -/
def Directive.plain (d : Directive) : Bool :=
  d.flags.isEmpty && d.wid.isNone && d.prec.isNone && (d.verb == 0x73 || d.verb == 0x76)

/-- A string operand of Fprintf: its bytes, and what package fmt writes for it
under a directive other than the plain verbs. -/
structure Operand where
  str : List UInt8
  other : Directive → List UInt8

/-- Model of printArg on a string operand. -/
def printArg (d : Directive) (arg : Operand) : List UInt8 :=
  if d.plain then arg.str else arg.other d

/-- The function tooLarge of package fmt. -/
def tooLarge (x : Nat) : Bool := decide (1000000 < x)

/-- The loop of parsenum: value, whether a digit was seen, and the rest of the
input.  On overflow the scan gives up and jumps to the end of its range. -/
def parsenum.loop : List UInt8 → Nat → Bool → Nat × Bool × List UInt8
  | [], num, isnum => (num, isnum, [])
  | c :: cs, num, isnum =>
    if inRange c 0x30 0x39 then
      if tooLarge num then (0, false, [])
      else parsenum.loop cs (num * 10 + (c.toNat - 0x30)) true
    else (num, isnum, c :: cs)

/-- The function parsenum of package fmt, on the part of the format that is left. -/
def parsenum (s : List UInt8) : Nat × Bool × List UInt8 := parsenum.loop s 0 false

/-- The function parseArgNumber of package fmt, on input that starts with
an opening bracket: the zero-based index, the width of the bracketed text, and
whether it was well formed. -/
def parseArgNumber (s : List UInt8) : Int × Nat × Bool :=
  if s.length < 3 then (0, 1, false)
  else
    let seg := (s.drop 1).takeWhile (fun c => c != 0x5D)
    if seg.length + 1 < s.length then
      let r := parsenum seg
      if !r.2.1 || !r.2.2.isEmpty then (0, seg.length + 2, false)
      else ((r.1 : Int) - 1, seg.length + 2, true)
    else (0, 1, false)

/-- The state of the printer while it reads one directive: the bytes written for
the directive so far, the format still to be read, the index of the next
operand, and the flags afterIndex, goodArgNum and reordered of doPrintf; the
width and precision once they are read. -/
structure ppScan where
  out : List UInt8
  rest : List UInt8
  argNum : Nat
  afterIndex : Bool
  goodArgNum : Bool
  reordered : Bool
  wid : Option Nat
  prec : Option Nat
deriving DecidableEq, Repr

/-- The method argNumber of package fmt: an operand index in brackets, if one
comes next. -/
def argNumber (numArgs : Nat) (sc : ppScan) : ppScan :=
  match sc.rest with
  | c :: _ =>
    if c == 0x5B then
      let r := parseArgNumber sc.rest
      if r.2.2 && decide (0 ≤ r.1) && decide (r.1 < (numArgs : Int)) then
        { sc with argNum := r.1.toNat, rest := sc.rest.drop r.2.1, afterIndex := true,
                  reordered := true }
      else
        { sc with rest := sc.rest.drop r.2.1, afterIndex := r.2.2, goodArgNum := false,
                  reordered := true }
    else { sc with afterIndex := false }
  | [] => { sc with afterIndex := false }

/-- The operand index after intFromArg: a string operand is used up without
giving a number. -/
def intFromArg (numArgs argNum : Nat) : Nat := if argNum < numArgs then argNum + 1 else argNum

/-- The width of a directive: a star, which finds no integer operand, or digits. -/
def scanWidth (numArgs : Nat) (sc : ppScan) : ppScan :=
  let digits : ppScan :=
    { sc with rest := (parsenum sc.rest).2.2,
              wid := if (parsenum sc.rest).2.1 then some (parsenum sc.rest).1 else none,
              goodArgNum := sc.goodArgNum && !(sc.afterIndex && (parsenum sc.rest).2.1) }
  match sc.rest with
  | c :: t =>
    if c == 0x2A then
      { sc with out := sc.out ++ ascii "%!(BADWIDTH)", rest := t,
                argNum := intFromArg numArgs sc.argNum, afterIndex := false }
    else digits
  | [] => digits

/-- The precision of a directive: a dot, then an index, a star or digits. -/
def scanPrec (numArgs : Nat) (sc : ppScan) : ppScan :=
  match sc.rest with
  | c :: t =>
    if c == 0x2E then
      let sc1 := argNumber numArgs
        { sc with rest := t, goodArgNum := sc.goodArgNum && !sc.afterIndex }
      let digits : ppScan :=
        { sc1 with rest := (parsenum sc1.rest).2.2,
                   prec := some (if (parsenum sc1.rest).2.1 then (parsenum sc1.rest).1 else 0) }
      match sc1.rest with
      | c1 :: t1 =>
        if c1 == 0x2A then
          { sc1 with out := sc1.out ++ ascii "%!(BADPREC)", rest := t1,
                     argNum := intFromArg numArgs sc1.argNum, afterIndex := false }
        else digits
      | [] => digits
    else sc
  | [] => sc

/-- The verb of a directive and what is written for it. -/
def scanVerb (a : List Operand) (flags : List UInt8) (sc : ppScan) : ppScan :=
  match sc.rest with
  | [] => { sc with out := sc.out ++ ascii "%!(NOVERB)" }
  | c :: t =>
    let verb := (DecodeRune (c :: t)).1
    let rest := (c :: t).drop (DecodeRune (c :: t)).2
    if verb = 0x25 then { sc with out := sc.out ++ [0x25], rest := rest }
    else if !sc.goodArgNum then
      { sc with out := sc.out ++ ascii "%!" ++ EncodeRune verb ++ ascii "(BADINDEX)", rest := rest }
    else
      match a.get? sc.argNum with
      | none =>
        { sc with out := sc.out ++ ascii "%!" ++ EncodeRune verb ++ ascii "(MISSING)",
                  rest := rest }
      | some arg =>
        { sc with out := sc.out ++ printArg ⟨flags, sc.wid, sc.prec, verb⟩ arg, rest := rest,
                  argNum := sc.argNum + 1 }

/-- A flag byte of a directive. -/
def isFlag (c : UInt8) : Bool := c == 0x23 || c == 0x30 || c == 0x2B || c == 0x2D || c == 0x20

/-- One directive of doPrintf; f is the format after the percent sign, argNum
and reordered the state left by the directives before. -/
def directive (a : List Operand) (argNum : Nat) (reordered : Bool) (f : List UInt8) : ppScan :=
  let flags := f.takeWhile isFlag
  let sc0 : ppScan := ⟨[], f.dropWhile isFlag, argNum, false, true, reordered, none, none⟩
  let full : ppScan :=
    let sc3 := scanPrec a.length (scanWidth a.length (argNumber a.length sc0))
    scanVerb a flags (if sc3.afterIndex then sc3 else argNumber a.length sc3)
  -- fast path: a lower-case verb right after the flags, and an operand for it
  match f.dropWhile isFlag, a.get? argNum with
  | c :: t, some arg =>
    if inRange c 0x61 0x7A then
      { sc0 with out := printArg ⟨flags, none, none, c.toNat⟩ arg, rest := t,
                 argNum := argNum + 1 }
    else full
  | _, _ => full

/-- What doPrintf appends when operands are left over at the end of the format. -/
def extraArgs (a : List Operand) (argNum : Nat) (reordered : Bool) : List UInt8 :=
  if !reordered && decide (argNum < a.length) then
    ascii "%!(EXTRA " ++
      (ascii ", ").intercalate ((a.drop argNum).map (fun arg => ascii "string=" ++ arg.str)) ++
      ascii ")"
  else []

/-- The format loop of doPrintf.  The fuel is the length of the format: every
step uses up at least one byte of it (see doPrintf_fuel). -/
def doPrintf.loop (a : List Operand) : Nat → List UInt8 → Nat → Bool → List UInt8
  | _, [], argNum, reordered => extraArgs a argNum reordered
  | 0, _ :: _, _, _ => []
  | n + 1, c :: f, argNum, reordered =>
    if c = 0x25 then
      (directive a argNum reordered f).out ++
        doPrintf.loop a n (directive a argNum reordered f).rest
          (directive a argNum reordered f).argNum (directive a argNum reordered f).reordered
    else c :: doPrintf.loop a n f argNum reordered

/-- Model of the bytes fmt.Fprintf(w, format, a...) writes to w. -/
def doPrintf (format : List UInt8) (a : List Operand) : List UInt8 :=
  doPrintf.loop a format.length format 0 false

/-! ## encoding/json

`json.Unmarshal(data, vnr)` first checks that the whole input is one JSON
value (the scanner of package json), then stores the value into the record.
The text of the errors it returns is not modelled, only their kind. -/

/-- A JSON value as read by the scanner: strings and keys with their escapes
resolved, numbers as their literal text. -/
inductive Value where
  | null
  | bool (b : Bool)
  | number (lit : List UInt8)
  | string (s : List UInt8)
  | array (elems : List Value)
  | object (members : List (List UInt8 × Value))
deriving Repr

/-- The function isSpace of the scanner. -/
def isSpace (c : UInt8) : Bool := c == 0x20 || c == 0x09 || c == 0x0D || c == 0x0A

/-- An ASCII decimal digit. -/
def isDigit (c : UInt8) : Bool := inRange c 0x30 0x39

/-- An ASCII hexadecimal digit. -/
def isHex (c : UInt8) : Bool := isDigit c || inRange c 0x61 0x66 || inRange c 0x41 0x46

/-- The value of a hexadecimal digit. -/
def hexVal (c : UInt8) : Nat :=
  if isDigit c then c.toNat - 0x30
  else if inRange c 0x61 0x66 then c.toNat - 0x61 + 10
  else c.toNat - 0x41 + 10

/-- The states of the scanner inside a string literal: plain text, after a
backslash, and inside a backslash-u escape with k hexadecimal digits to come. -/
inductive StringState where
  | plain
  | esc
  | hex (k : Nat)
deriving DecidableEq, Repr

/-- The scanner inside a string literal, byte by byte: the raw text up to the
closing quote and what follows it.  Control characters and malformed escapes
are errors, and so is the end of the input. -/
def scanString.go : StringState → List UInt8 → Option (List UInt8 × List UInt8)
  | _, [] => none
  | .plain, c :: t =>
    if c == 0x22 then some ([], t)
    else if c == 0x5C then (scanString.go .esc t).map (fun r => (c :: r.1, r.2))
    else if c.toNat < 0x20 then none
    else (scanString.go .plain t).map (fun r => (c :: r.1, r.2))
  | .esc, c :: t =>
    if c == 0x75 then (scanString.go (.hex 4) t).map (fun r => (c :: r.1, r.2))
    else if c == 0x62 || c == 0x66 || c == 0x6E || c == 0x72 || c == 0x74 || c == 0x5C
        || c == 0x2F || c == 0x22 then
      (scanString.go .plain t).map (fun r => (c :: r.1, r.2))
    else none
  | .hex k, c :: t =>
    if isHex c then
      (scanString.go (if k ≤ 1 then .plain else .hex (k - 1)) t).map (fun r => (c :: r.1, r.2))
    else none

/-- The scanner on a string literal, after the opening quote. -/
def scanString (s : List UInt8) : Option (List UInt8 × List UInt8) := scanString.go .plain s

/-- The function getu4 of package json: the code unit of a leading
backslash-u escape. -/
def getu4 (s : List UInt8) : Option Nat :=
  match s with
  | b :: u :: h1 :: h2 :: h3 :: h4 :: _ =>
    if b == 0x5C && u == 0x75 && isHex h1 && isHex h2 && isHex h3 && isHex h4 then
      some (((hexVal h1 * 16 + hexVal h2) * 16 + hexVal h3) * 16 + hexVal h4)
    else none
  | _ => none

/-- One round of the loop of unquoteBytes on the raw text c :: t of a string
literal: the bytes it appends and the number of bytes of the text it uses up.
An escape is resolved, a surrogate pair combined (a lone surrogate gives
U+FFFD), an ASCII byte copied, and other bytes coerced to well-formed UTF-8. -/
def unquote.step (c : UInt8) (t : List UInt8) : Option (List UInt8 × Nat) :=
  if c == 0x5C then
    match t with
    | [] => none
    | e :: _ =>
      if e == 0x22 || e == 0x5C || e == 0x2F || e == 0x27 then some ([e], 2)
      else if e == 0x62 then some ([0x08], 2)
      else if e == 0x66 then some ([0x0C], 2)
      else if e == 0x6E then some ([0x0A], 2)
      else if e == 0x72 then some ([0x0D], 2)
      else if e == 0x74 then some ([0x09], 2)
      else if e == 0x75 then
        match getu4 (c :: t) with
        | none => none
        | some rr =>
          if 0xD800 ≤ rr ∧ rr < 0xE000 then
            match getu4 (t.drop 5) with
            | some rr1 =>
              if rr < 0xDC00 ∧ 0xDC00 ≤ rr1 ∧ rr1 < 0xE000 then
                some (EncodeRune ((rr - 0xD800) * 0x400 + (rr1 - 0xDC00) + 0x10000), 12)
              else some (EncodeRune RuneError, 6)
            | none => some (EncodeRune RuneError, 6)
          else some (EncodeRune rr, 6)
      else none
  else if c == 0x22 || decide (c.toNat < 0x20) then none
  else if c.toNat < 0x80 then some ([c], 1)
  else some (EncodeRune (DecodeRune (c :: t)).1, (DecodeRune (c :: t)).2)

/-- The loop of unquoteBytes.  The fuel is the length of the text: every round
uses up at least one byte of it (see unquote_fuel). -/
def unquote.loop : Nat → List UInt8 → Option (List UInt8)
  | _, [] => some []
  | 0, _ :: _ => none
  | n + 1, c :: t =>
    match unquote.step c t with
    | none => none
    | some r => (unquote.loop n (t.drop (r.2 - 1))).map (fun u => r.1 ++ u)

/-- The function unquoteBytes of package json, on the text between the quotes. -/
def unquote (raw : List UInt8) : Option (List UInt8) := unquote.loop raw.length raw

/-- The scanner on a number: the literal at the head of s, that is an optional
minus sign, the integer part, an optional fraction and an optional exponent. -/
def scanNumber (s : List UInt8) : Option (List UInt8) :=
  let sign := (s.takeWhile (fun c => c == 0x2D)).take 1
  let s1 := s.drop sign.length
  match s1 with
  | [] => none
  | c :: t =>
    if !isDigit c then none
    else
      let intPart := if c == 0x30 then [c] else c :: t.takeWhile isDigit
      let s2 := s1.drop intPart.length
      let frac : Option (List UInt8) :=
        match s2 with
        | d :: t2 =>
          if d == 0x2E then
            if (t2.takeWhile isDigit).isEmpty then none else some (d :: t2.takeWhile isDigit)
          else some []
        | [] => some []
      match frac with
      | none => none
      | some fr =>
        let s3 := s2.drop fr.length
        let exp : Option (List UInt8) :=
          match s3 with
          | e :: t3 =>
            if e == 0x65 || e == 0x45 then
              let sg := (t3.takeWhile (fun c => c == 0x2B || c == 0x2D)).take 1
              let ds := (t3.drop sg.length).takeWhile isDigit
              if ds.isEmpty then none else some (e :: sg ++ ds)
            else some []
          | [] => some []
        match exp with
        | none => none
        | some ex => some (sign ++ intPart ++ fr ++ ex)

/-- The nesting limit of the scanner. -/
def maxNestingDepth : Nat := 10000

/-- A value that is no array and no object at the head of s: a string, a
number or one of the literals true, false and null. -/
def parseScalar (s : List UInt8) : Option (Value × List UInt8) :=
  match s with
  | [] => none
  | c :: t =>
    if c == 0x22 then
      match scanString t with
      | some r =>
        match unquote r.1 with
        | some u => some (.string u, r.2)
        | none => none
      | none => none
    else if c == 0x2D || isDigit c then
      match scanNumber s with
      | some lit => some (.number lit, t.drop (lit.length - 1))
      | none => none
    else if (ascii "true").isPrefixOf s then some (.bool true, t.drop 3)
    else if (ascii "false").isPrefixOf s then some (.bool false, t.drop 4)
    else if (ascii "null").isPrefixOf s then some (.null, t.drop 3)
    else none

/-- The key of an object member at the head of s, the colon after it and the
blanks around the colon: the key and the rest, which starts with the value. -/
def parseKey (s : List UInt8) : Option (List UInt8 × List UInt8) :=
  match s with
  | [] => none
  | q :: t =>
    if q != 0x22 then none
    else
      match scanString t with
      | none => none
      | some r =>
        match unquote r.1, r.2.dropWhile isSpace with
        | some key, colon :: r1 =>
          if colon != 0x3A then none else some (key, r1.dropWhile isSpace)
        | _, _ => none

mutual
/-- One JSON value at the head of s (blanks already skipped), and the rest.  The
fuel bounds the recursion; twice the length of the input is enough (see
parseValue_fuel). -/
def parseValue : Nat → Nat → List UInt8 → Option (Value × List UInt8)
  | 0, _, _ => none
  | n + 1, depth, s =>
    match s with
    | [] => none
    | c :: t =>
      if c == 0x7B then
        if maxNestingDepth ≤ depth then none
        else
          match t.dropWhile isSpace with
          | [] => none
          | c1 :: t1 =>
            if c1 == 0x7D then some (.object [], t1)
            else
              match parseMembers n (depth + 1) (c1 :: t1) with
              | some r => some (.object r.1, r.2)
              | none => none
      else if c == 0x5B then
        if maxNestingDepth ≤ depth then none
        else
          match t.dropWhile isSpace with
          | [] => none
          | c1 :: t1 =>
            if c1 == 0x5D then some (.array [], t1)
            else
              match parseElems n (depth + 1) (c1 :: t1) with
              | some r => some (.array r.1, r.2)
              | none => none
      else parseScalar (c :: t)
/-- The elements of an array after the opening bracket, up to and including
the closing bracket. -/
def parseElems : Nat → Nat → List UInt8 → Option (List Value × List UInt8)
  | 0, _, _ => none
  | n + 1, depth, s =>
    match parseValue n depth s with
    | none => none
    | some r =>
      match r.2.dropWhile isSpace with
      | [] => none
      | c :: t =>
        if c == 0x2C then
          match parseElems n depth (t.dropWhile isSpace) with
          | some r2 => some (r.1 :: r2.1, r2.2)
          | none => none
        else if c == 0x5D then some ([r.1], t)
        else none
/-- The members of an object after the opening brace, up to and including the
closing brace. -/
def parseMembers : Nat → Nat → List UInt8 → Option (List (List UInt8 × Value) × List UInt8)
  | 0, _, _ => none
  | n + 1, depth, s =>
    match parseKey s with
    | none => none
    | some k =>
      match parseValue n depth k.2 with
      | none => none
      | some r =>
        match r.2.dropWhile isSpace with
        | [] => none
        | c :: t =>
          if c == 0x2C then
            match parseMembers n depth (t.dropWhile isSpace) with
            | some r2 => some ((k.1, r.1) :: r2.1, r2.2)
            | none => none
          else if c == 0x7D then some ([(k.1, r.1)], t)
          else none
end

/-- The function checkValid followed by the reading of the value: the one JSON
value that makes up the whole input, or none on a syntax error. -/
def parseJSON (data : List UInt8) : Option Value :=
  match parseValue (2 * data.length + 2) 0 (data.dropWhile isSpace) with
  | some (v, r) => if (r.dropWhile isSpace).isEmpty then some v else none
  | none => none

/-- A value of type interface{} as package json builds it: nil, bool, float64,
string, []interface{} or map[string]interface{}.  A float64 is kept as the
number literal it was converted from; a map is kept as its entries, one for
each key. -/
inductive Iface where
  | nil
  | bool (b : Bool)
  | float64 (lit : List UInt8)
  | string (s : List UInt8)
  | slice (elems : List Iface)
  | map (entries : List (List UInt8 × Iface))
deriving Repr

/-- The natural number written by a list of decimal digits. -/
def digitsVal (ds : List UInt8) : Nat := ds.foldl (fun acc c => acc * 10 + (c.toNat - 0x30)) 0

/-- The exponent strconv reads from the digits after the letter e: once the
value has reached 10000, further digits are ignored. -/
def expVal (ds : List UInt8) : Nat :=
  ds.foldl (fun e c => if e < 10000 then e * 10 + (c.toNat - 0x30) else e) 0

/-- Whether strconv.ParseFloat(lit, 64) fails with a range error on a JSON
number literal.  The conversion rounds to the nearest float64, so it fails
exactly when the magnitude of the number is at least 2^1024 - 2^970, from
where on it rounds to infinity. -/
def floatOverflows (lit : List UInt8) : Bool :=
  let s := lit.dropWhile (fun c => c == 0x2D)
  let intPart := s.takeWhile isDigit
  let s1 := s.dropWhile isDigit
  let frac := (s1.dropWhile (fun c => c == 0x2E)).takeWhile isDigit
  let s2 := (s1.dropWhile (fun c => c == 0x2E)).dropWhile isDigit
  let s3 := s2.dropWhile (fun c => c == 0x65 || c == 0x45)
  let negExp := s3.head? == some 0x2D
  let e := expVal (s3.dropWhile (fun c => c == 0x2B || c == 0x2D))
  let m := digitsVal (intPart ++ frac)
  let limit : Nat := 2 ^ 1024 - 2 ^ 970
  if m = 0 then false
  else if negExp then decide (limit * 10 ^ (e + frac.length) ≤ m)
  else if frac.length ≤ e then decide (limit ≤ m * 10 ^ (e - frac.length))
  else decide (limit * 10 ^ (frac.length - e) ≤ m)

mutual
/-- The method valueInterface: a JSON value as an interface{} value, and
whether an error was saved on the way (a number out of the float64 range; it
is stored as nil). -/
def toIface : Value → Iface × Bool
  | .null => (.nil, false)
  | .bool b => (.bool b, false)
  | .number lit => if floatOverflows lit then (.nil, true) else (.float64 lit, false)
  | .string s => (.string s, false)
  | .array es => (.slice (toIfaceList es).1, (toIfaceList es).2)
  | .object ms => (.map (toIfaceMap ms).1, (toIfaceMap ms).2)
/-- The method arrayInterface. -/
def toIfaceList : List Value → List Iface × Bool
  | [] => ([], false)
  | v :: vs => ((toIface v).1 :: (toIfaceList vs).1, (toIface v).2 || (toIfaceList vs).2)
/-- The method objectInterface: one entry for each key, holding the value
assigned last. -/
def toIfaceMap : List (List UInt8 × Value) → List (List UInt8 × Iface) × Bool
  | [] => ([], false)
  | (k, v) :: ms =>
    (if (toIfaceMap ms).1.any (fun e => e.1 == k) then (toIfaceMap ms).1
      else (k, (toIface v).1) :: (toIfaceMap ms).1,
      (toIface v).2 || (toIfaceMap ms).2)
end

/-- A Go slice: whether it is nil, its elements, and the elements of its
backing array beyond its length (a later decode into the slice reuses them). -/
structure Slice (α : Type) where
  isNil : Bool
  elems : List α
  spare : List α
deriving Repr

/-- The nil slice. -/
def Slice.zero {α : Type} : Slice α := ⟨true, [], []⟩

/-- The struct type of the field Links of an item. -/
structure ItemLinks where
  Encubed : List UInt8
  Renai : Iface
  Wikipedia : List UInt8
deriving Repr

/-- The struct type of the elements of VNResponse.Items. -/
structure Item where
  Aliases : List UInt8
  Description : List UInt8
  ID : Int
  Image : List UInt8
  ImageNsfw : Bool
  Languages : Slice (List UInt8)
  Length : Int
  Links : ItemLinks
  OrigLang : Slice (List UInt8)
  Original : Iface
  Platforms : Slice (List UInt8)
  Released : List UInt8
  Title : List UInt8
deriving Repr

/-- The struct VNResponse of main.go. -/
structure VNResponse where
  Items : Slice Item
  More : Bool
  Num : Int
deriving Repr

/-- The zero value of ItemLinks. -/
def ItemLinks.zero : ItemLinks := ⟨[], .nil, []⟩

/-- The zero value of an item. -/
def Item.zero : Item :=
  ⟨[], [], 0, [], false, Slice.zero, 0, ItemLinks.zero, Slice.zero, .nil, Slice.zero, [], []⟩

/-- The record that new(VNResponse) points to. -/
def VNResponse.zero : VNResponse := ⟨Slice.zero, false, 0⟩

/-- Decoding into a string field: a JSON string is stored, null is ignored,
anything else is a type error and leaves the field as it is. -/
def decodeString (cur : List UInt8) : Value → List UInt8 × Bool
  | .string s => (s, false)
  | .null => (cur, false)
  | _ => (cur, true)

/-- Decoding into a bool field. -/
def decodeBool (cur : Bool) : Value → Bool × Bool
  | .bool b => (b, false)
  | .null => (cur, false)
  | _ => (cur, true)

/-- The result of strconv.ParseInt(lit, 10, 64) on a JSON number literal:
an optional minus sign and digits only, within the range of int64. -/
def parseInt (lit : List UInt8) : Option Int :=
  let neg := lit.head? == some 0x2D
  let ds := if neg then lit.drop 1 else lit
  if ds.isEmpty || !ds.all isDigit then none
  else
    let v : Int := if neg then -(digitsVal ds : Int) else (digitsVal ds : Int)
    if -(2 : Int) ^ 63 ≤ v ∧ v ≤ (2 : Int) ^ 63 - 1 then some v else none

/-- Decoding into a field of type int (64 bits wide). -/
def decodeInt (cur : Int) : Value → Int × Bool
  | .number lit =>
    match parseInt lit with
    | some v => (v, false)
    | none => (cur, true)
  | .null => (cur, false)
  | _ => (cur, true)

/-- Decoding into a field of type interface{}: the field is replaced by the
generic form of the value; a top-level number out of range leaves it as it is. -/
def decodeIface (cur : Iface) : Value → Iface × Bool
  | .number lit => if floatOverflows lit then (cur, true) else (.float64 lit, false)
  | v => toIface v

/-- The loop of decodeState.array on a slice: the JSON elements are decoded
one by one into the elements the slice already has, then into those left in
its backing array, then into fresh zero values.  Returns the elements, the
new remainder of the backing array and whether an error was saved. -/
def decodeElems {α : Type} (zero : α) (dec : α → Value → α × Bool) :
    List Value → List α → List α → List α × List α × Bool
  | [], cur, spare => ([], cur ++ spare, false)
  | v :: vs, c :: cur, spare =>
    ((dec c v).1 :: (decodeElems zero dec vs cur spare).1,
      (decodeElems zero dec vs cur spare).2.1,
      (dec c v).2 || (decodeElems zero dec vs cur spare).2.2)
  | v :: vs, [], c :: spare =>
    ((dec c v).1 :: (decodeElems zero dec vs [] spare).1,
      (decodeElems zero dec vs [] spare).2.1,
      (dec c v).2 || (decodeElems zero dec vs [] spare).2.2)
  | v :: vs, [], [] =>
    ((dec zero v).1 :: (decodeElems zero dec vs [] []).1,
      (decodeElems zero dec vs [] []).2.1,
      (dec zero v).2 || (decodeElems zero dec vs [] []).2.2)

/-- Decoding into a field of slice type: an array is decoded element by
element (an empty one gives a fresh empty slice), null gives the nil slice,
anything else is a type error. -/
def decodeSlice {α : Type} (zero : α) (dec : α → Value → α × Bool) (cur : Slice α) :
    Value → Slice α × Bool
  | .array [] => (⟨false, [], []⟩, false)
  | .array (v :: vs) =>
    let r := decodeElems zero dec (v :: vs) cur.elems cur.spare
    (⟨false, r.1, r.2.1⟩, r.2.2)
  | .null => (Slice.zero, false)
  | _ => (cur, true)

/-- The loop of foldName; skip counts the bytes still to pass over of a
letter that has been folded already. -/
def foldName.loop : Nat → List UInt8 → List UInt8
  | _, [] => []
  | k + 1, _ :: t => foldName.loop k t
  | 0, c :: t =>
    if c == 0xC5 && t.head? == some 0xBF then 0x53 :: foldName.loop 1 t
    else if c == 0xE2 && t.take 2 == [0x84, 0xAA] then 0x4B :: foldName.loop 2 t
    else (if inRange c 0x61 0x7A then c - 0x20 else c) :: foldName.loop 0 t

/-- The function foldName of package json on a key: ASCII letters in upper
case, and the two letters outside ASCII that fold to an ASCII letter (the long
s U+017F and the Kelvin sign U+212A) replaced by it. -/
def foldName (key : List UInt8) : List UInt8 := foldName.loop 0 key

/-- Whether an object key selects the struct field with the given JSON name:
the same bytes, or equal under case folding. -/
def keyIs (name : String) (key : List UInt8) : Bool :=
  key == ascii name || foldName key == foldName (ascii name)

/-- One member of a JSON object decoded into the struct ItemLinks.  Keys that
match no field are skipped. -/
def ItemLinks.setField (cur : ItemLinks) (key : List UInt8) (v : Value) : ItemLinks × Bool :=
  if keyIs "encubed" key then ({ cur with Encubed := (decodeString cur.Encubed v).1 },
    (decodeString cur.Encubed v).2)
  else if keyIs "renai" key then ({ cur with Renai := (decodeIface cur.Renai v).1 },
    (decodeIface cur.Renai v).2)
  else if keyIs "wikipedia" key then ({ cur with Wikipedia := (decodeString cur.Wikipedia v).1 },
    (decodeString cur.Wikipedia v).2)
  else (cur, false)

/-- The members of a JSON object decoded in order into a struct. -/
def decodeMembers {α : Type} (setField : α → List UInt8 → Value → α × Bool) (cur : α) :
    List (List UInt8 × Value) → α × Bool
  | [] => (cur, false)
  | (k, v) :: ms =>
    ((decodeMembers setField (setField cur k v).1 ms).1,
      (setField cur k v).2 || (decodeMembers setField (setField cur k v).1 ms).2)

/-- Decoding into a struct: an object sets the fields its keys name, null is
ignored, anything else is a type error. -/
def decodeStruct {α : Type} (setField : α → List UInt8 → Value → α × Bool) (cur : α) :
    Value → α × Bool
  | .object ms => decodeMembers setField cur ms
  | .null => (cur, false)
  | _ => (cur, true)

/-- Decoding into a field of type []string. -/
def decodeStrings (cur : Slice (List UInt8)) (v : Value) : Slice (List UInt8) × Bool :=
  decodeSlice [] decodeString cur v

/-- One member of a JSON object decoded into an item. -/
def Item.setField (cur : Item) (key : List UInt8) (v : Value) : Item × Bool :=
  if keyIs "aliases" key then
    ({ cur with Aliases := (decodeString cur.Aliases v).1 }, (decodeString cur.Aliases v).2)
  else if keyIs "description" key then
    ({ cur with Description := (decodeString cur.Description v).1 },
      (decodeString cur.Description v).2)
  else if keyIs "id" key then ({ cur with ID := (decodeInt cur.ID v).1 }, (decodeInt cur.ID v).2)
  else if keyIs "image" key then
    ({ cur with Image := (decodeString cur.Image v).1 }, (decodeString cur.Image v).2)
  else if keyIs "image_nsfw" key then
    ({ cur with ImageNsfw := (decodeBool cur.ImageNsfw v).1 }, (decodeBool cur.ImageNsfw v).2)
  else if keyIs "languages" key then
    ({ cur with Languages := (decodeStrings cur.Languages v).1 },
      (decodeStrings cur.Languages v).2)
  else if keyIs "length" key then
    ({ cur with Length := (decodeInt cur.Length v).1 }, (decodeInt cur.Length v).2)
  else if keyIs "links" key then
    ({ cur with Links := (decodeStruct ItemLinks.setField cur.Links v).1 },
      (decodeStruct ItemLinks.setField cur.Links v).2)
  else if keyIs "orig_lang" key then
    ({ cur with OrigLang := (decodeStrings cur.OrigLang v).1 }, (decodeStrings cur.OrigLang v).2)
  else if keyIs "original" key then
    ({ cur with Original := (decodeIface cur.Original v).1 }, (decodeIface cur.Original v).2)
  else if keyIs "platforms" key then
    ({ cur with Platforms := (decodeStrings cur.Platforms v).1 },
      (decodeStrings cur.Platforms v).2)
  else if keyIs "released" key then
    ({ cur with Released := (decodeString cur.Released v).1 }, (decodeString cur.Released v).2)
  else if keyIs "title" key then
    ({ cur with Title := (decodeString cur.Title v).1 }, (decodeString cur.Title v).2)
  else (cur, false)

/-- One member of a JSON object decoded into a VNResponse. -/
def VNResponse.setField (cur : VNResponse) (key : List UInt8) (v : Value) : VNResponse × Bool :=
  if keyIs "items" key then
    ({ cur with Items := (decodeSlice Item.zero (decodeStruct Item.setField) cur.Items v).1 },
      (decodeSlice Item.zero (decodeStruct Item.setField) cur.Items v).2)
  else if keyIs "more" key then
    ({ cur with More := (decodeBool cur.More v).1 }, (decodeBool cur.More v).2)
  else if keyIs "num" key then ({ cur with Num := (decodeInt cur.Num v).1 }, (decodeInt cur.Num v).2)
  else (cur, false)

/-- The two kinds of error json.Unmarshal returns for a VNResponse. -/
inductive JSONError where
  | SyntaxError
  | UnmarshalTypeError
deriving DecidableEq, Repr

/-- Model of json.Unmarshal(data, vnr) for vnr of type *VNResponse: the record
afterwards and the error returned.  On a syntax error nothing is stored; a
value of the wrong type for its field is skipped, the rest is still stored,
and a type error is returned. -/
def Unmarshal (data : List UInt8) (vnr : VNResponse) : VNResponse × Option JSONError :=
  match parseJSON data with
  | none => (vnr, some .SyntaxError)
  | some v =>
    ((decodeStruct VNResponse.setField vnr v).1,
      if (decodeStruct VNResponse.setField vnr v).2 then some .UnmarshalTypeError else none)

/-! ## The client: Login, DBStats, GetVN -/

/-- The format string of the login command, sentinel included. -/
def loginFormat : List UInt8 :=
  ascii ("login \x7b\"protocol\":1,\"client\":\"go-vndb\",\"clientver\":0.1," ++
    "\"username\":\"%s\",\"password\":\"%s\"\x7d") ++ [END]

/-- The method Login of main.go.  Returns the connection afterwards and the
text of the error, none standing for a nil error.  The parameter other is the
unmodelled part of package fmt (see Operand). -/
def Login (other : List UInt8 → Directive → List UInt8) (c : Connection)
    (username password : List UInt8) : Connection × Option (List UInt8) :=
  if username.length == 0 || password.length == 0 then
    (c, some (ascii "Login(): zero length credential supplied"))
  else
    let s1 := c.sock.Write
      (doPrintf loginFormat [⟨username, other username⟩, ⟨password, other password⟩])
    let r := ReadString END s1.incoming
    let c2 : Connection := ⟨{ s1 with incoming := r.2.2 }⟩
    match r.2.1 with
    | some err => (c2, some (ascii "Login(): error reading reply: %s" ++ err.Error))
    | none =>
      if r.1 != ascii "ok" ++ [END] then
        (c2, some (ascii "Login(): error logging in: %s" ++ r.1))
      else (c2, none)

/-- Model of the bytes fmt.Fprint writes for a single string operand: the
string itself. -/
def Fprint (a : List UInt8) : List UInt8 := a

/-- What a call of DBStats leaves behind: the connection, the returned string,
and the bytes printed on standard output. -/
structure DBStatsResult where
  conn : Connection
  reply : List UInt8
  stdout : List UInt8
deriving DecidableEq, Repr

/-- The method DBStats of main.go. -/
def DBStats (c : Connection) : DBStatsResult :=
  let s1 := c.sock.Write (Fprint (ascii "dbstats" ++ [END]))
  let r := ReadString END s1.incoming
  let c2 : Connection := ⟨{ s1 with incoming := r.2.2 }⟩
  match r.2.1 with
  | some _ => ⟨c2, r.1, ascii "Error reading\n"⟩
  | none => ⟨c2, r.1, []⟩

/-- The errors GetVN returns: errors.New of a fixed text, of a prefix and the
text of a read error, or of a prefix and the text of the error that
json.Unmarshal returned for data. -/
inductive GetVNError where
  | emptyID
  | read (e : ReadError)
  | unmarshal (data : List UInt8) (e : JSONError)
deriving DecidableEq, Repr

/-- The text of an error of GetVN (the method Error); jsonErrorText gives the
text of the error json.Unmarshal returns for an input, which is not modelled. -/
def GetVNError.Error (jsonErrorText : List UInt8 → List UInt8) : GetVNError → List UInt8
  | .emptyID => ascii "GetVN(): ID cannot be empty."
  | .read e => ascii "GetVN(): Error reading string from connection: " ++ e.Error
  | .unmarshal data _ => ascii "GetVN(): Error unmarshalling JSON: " ++ jsonErrorText data

/-- The method GetVN of main.go.  Returns the connection afterwards, the record
vnr points to, and the error (none for nil). -/
def GetVN (c : Connection) (id : List UInt8) : Connection × VNResponse × Option GetVNError :=
  let vnr := VNResponse.zero
  if id = [] then (c, vnr, some .emptyID)
  else
    let s1 := c.sock.Write
      (doPrintf (ascii "get vn basic,details (id = " ++ id ++ ascii ")" ++ [END]) [])
    let r := ReadSlice END s1.incoming
    let c2 : Connection := ⟨{ s1 with incoming := r.2.2 }⟩
    match r.2.1 with
    | some err => (c2, vnr, some (.read err))
    | none =>
      let u := Unmarshal (trim r.1) vnr
      match u.2 with
      | some e => (c2, u.1, some (.unmarshal (trim r.1) e))
      | none => (c2, u.1, none)

/-! ## Replies used as examples -/

/-- The reply of the specification's example for GetVN. -/
def exampleReply : List UInt8 :=
  ascii ("results \x7b\"num\":1,\"more\":false,\"items\":" ++
    "[\x7b\"id\":11,\"title\":\"Example\"\x7d]\x7d") ++ [END]

/-- A JSON document for one record whose description is 4096 bytes long. -/
def longDocument : List UInt8 :=
  ascii ("\x7b\"num\":1,\"more\":false,\"items\":" ++
    "[\x7b\"id\":11,\"title\":\"Example\",\"description\":\"") ++
    List.replicate 4096 0x61 ++ ascii "\"\x7d]\x7d"

/-- A reply that is a JSON document without the label. -/
def bareReply : List UInt8 :=
  ascii "\x7b\"num\":1,\"more\":false,\"items\":[]\x7d" ++ [END]

/-! ## Properties of the reader -/

theorem readUntil_not_mem (d : UInt8) (s : List UInt8) (h : d ∉ s) : readUntil d s = (s, false) := by
  induction s with
  | nil => rfl
  | cons b bs ih =>
    have hb : b ≠ d := fun e => h (by simp [e])
    have hbs : d ∉ bs := fun e => h (by simp [e])
    simp [readUntil, hb, ih hbs]

theorem readUntil_append (d : UInt8) (p rest : List UInt8) (h : d ∉ p) :
    readUntil d (p ++ d :: rest) = (p ++ [d], true) := by
  induction p with
  | nil => simp [readUntil]
  | cons b bs ih =>
    have hb : b ≠ d := fun e => h (by simp [e])
    have hbs : d ∉ bs := fun e => h (by simp [e])
    simp [readUntil, hb, ih hbs]

theorem readUntil_append_not_mem (d : UInt8) (p q : List UInt8) (h : d ∉ p) :
    readUntil d (p ++ q) = (p ++ (readUntil d q).1, (readUntil d q).2) := by
  induction p with
  | nil => simp
  | cons b bs ih =>
    have hb : b ≠ d := fun e => h (by simp [e])
    have hbs : d ∉ bs := fun e => h (by simp [e])
    simp [readUntil, hb, ih hbs]

theorem readUntil_found (d : UInt8) (s : List UInt8) : (readUntil d s).2 = true ↔ d ∈ s := by
  induction s with
  | nil => simp [readUntil]
  | cons b bs ih =>
    by_cases hb : b = d
    · simp [readUntil, hb]
    · have hd : ¬ d = b := fun e => hb e.symm
      simp [readUntil, hb, ih, hd]

theorem ReadSlice_found (d : UInt8) (p rest : List UInt8) (h : d ∉ p)
    (hlen : p.length < defaultBufSize) :
    ReadSlice d (p ++ d :: rest) = (p ++ [d], none, (p ++ d :: rest).drop defaultBufSize) := by
  have htake : (p ++ d :: rest).take defaultBufSize
      = p ++ d :: rest.take (defaultBufSize - p.length - 1) := by
    rw [List.take_append_eq_append_take, List.take_of_length_le (Nat.le_of_lt hlen)]
    congr 1
    obtain ⟨k, hk⟩ : ∃ k, defaultBufSize - p.length = k + 1 := ⟨defaultBufSize - p.length - 1, by omega⟩
    rw [hk, List.take_succ_cons]
    congr 2
  simp only [ReadSlice, htake, readUntil_append d p _ h]
  simp

theorem ReadSlice_full (d : UInt8) (s : List UInt8) (h : d ∉ s.take defaultBufSize)
    (hlen : defaultBufSize ≤ s.length) :
    ReadSlice d s = (s.take defaultBufSize, some .ErrBufferFull, s.drop defaultBufSize) := by
  have hl : (s.take defaultBufSize).length = defaultBufSize := by
    rw [List.length_take]; omega
  simp only [ReadSlice, readUntil_not_mem d _ h, hl]
  simp

theorem ReadSlice_eof (d : UInt8) (s : List UInt8) (h : d ∉ s)
    (hlen : s.length < defaultBufSize) :
    ReadSlice d s = (s, some .EOF, []) := by
  have ht : s.take defaultBufSize = s := List.take_of_length_le (Nat.le_of_lt hlen)
  simp only [ReadSlice, ht, readUntil_not_mem d _ h]
  have : ¬ defaultBufSize ≤ s.length := by omega
  simp [this]

theorem readUntil_prefix (d : UInt8) (l q : List UInt8) (h : (readUntil d l).2 = true) :
    readUntil d (l ++ q) = readUntil d l := by
  induction l with
  | nil => simp [readUntil] at h
  | cons b bs ih =>
    by_cases hb : b = d
    · simp [readUntil, hb]
    · simp only [readUntil, hb, if_false] at h
      simp [readUntil, hb, ih h]

theorem readUntil_false (d : UInt8) (s : List UInt8) (h : (readUntil d s).2 = false) :
    readUntil d s = (s, false) := by
  apply readUntil_not_mem
  intro hm
  rw [(readUntil_found d s).mpr hm] at h
  exact Bool.noConfusion h

/-- ReadString.loop with enough fuel returns the frame found by readUntil, or
the whole stream and EOF. -/
theorem ReadString_loop_eq (d : UInt8) (n : Nat) :
    ∀ s : List UInt8, s.length / defaultBufSize < n →
      (ReadString.loop d n s).1 = (readUntil d s).1 ∧
      (ReadString.loop d n s).2.1 = if (readUntil d s).2 then none else some ReadError.EOF := by
  induction n with
  | zero => intro s h; exact absurd h (Nat.not_lt_zero _)
  | succ n ih =>
    intro s hs
    have hsplit : s = s.take defaultBufSize ++ s.drop defaultBufSize :=
      (List.take_append_drop _ _).symm
    cases hf : (readUntil d (s.take defaultBufSize)).2 with
    | true =>
      have h1 : readUntil d s = readUntil d (s.take defaultBufSize) := by
        conv_lhs => rw [hsplit]
        exact readUntil_prefix d _ _ hf
      simp [ReadString.loop, ReadSlice, hf, h1]
    | false =>
      have hnm := readUntil_false d _ hf
      by_cases hlen : defaultBufSize ≤ s.length
      · have hl : (s.take defaultBufSize).length = defaultBufSize := by
          rw [List.length_take]; omega
        have hrest : (s.drop defaultBufSize).length / defaultBufSize < n := by
          rw [List.length_drop]
          simp only [defaultBufSize] at hs hlen ⊢
          omega
        have hnot : d ∉ s.take defaultBufSize := by
          intro hm
          rw [(readUntil_found d _).mpr hm] at hf
          exact Bool.noConfusion hf
        have h1 : readUntil d s
            = (s.take defaultBufSize ++ (readUntil d (s.drop defaultBufSize)).1,
                (readUntil d (s.drop defaultBufSize)).2) := by
          conv_lhs => rw [hsplit]
          exact readUntil_append_not_mem d _ _ hnot
        obtain ⟨i1, i2⟩ := ih _ hrest
        simp [ReadString.loop, ReadSlice, hf, hl, h1, i1, i2]
      · have ht : s.take defaultBufSize = s := List.take_of_length_le (by omega)
        have hl : ¬ defaultBufSize ≤ (s.take defaultBufSize).length := by rw [ht]; exact hlen
        rw [ht] at hnm
        simp [ReadString.loop, ReadSlice, hf, hlen, hnm, ht]

theorem ReadString_found (d : UInt8) (p rest : List UInt8) (h : d ∉ p) :
    (ReadString d (p ++ d :: rest)).1 = p ++ [d] ∧ (ReadString d (p ++ d :: rest)).2.1 = none := by
  have := ReadString_loop_eq d _ (p ++ d :: rest) (Nat.lt_succ_self _)
  rw [readUntil_append d p rest h] at this
  simpa [ReadString] using this

theorem ReadString_eof (d : UInt8) (s : List UInt8) (h : d ∉ s) :
    (ReadString d s).1 = s ∧ (ReadString d s).2.1 = some .EOF := by
  have := ReadString_loop_eq d _ s (Nat.lt_succ_self _)
  rw [readUntil_not_mem d s h] at this
  simpa [ReadString] using this

/-! ## Properties of trim -/

theorem dropWhile_beq_not_mem (c : UInt8) (l : List UInt8) (h : c ∉ l) :
    l.dropWhile (fun b => b == c) = l := by
  cases l with
  | nil => rfl
  | cons b bs =>
    have hb : b ≠ c := fun e => h (by simp [e])
    simp [List.dropWhile_cons, hb]

theorem TrimRight_append_END (p : List UInt8) (c : UInt8) (h : c ∉ p) :
    TrimRight (p ++ [c]) c = p := by
  have hr : c ∉ p.reverse := by simpa using h
  simp [TrimRight, List.dropWhile, dropWhile_beq_not_mem c _ hr]

theorem isPrefixOf_append_singleton (pre r : List UInt8) (c : UInt8) (h : c ∉ pre) :
    pre.isPrefixOf (r ++ [c]) = pre.isPrefixOf r := by
  induction pre generalizing r with
  | nil => simp
  | cons a as ih =>
    have ha : a ≠ c := fun e => h (by simp [e])
    have has : c ∉ as := fun e => h (by simp [e])
    cases r with
    | nil => simp [List.isPrefixOf, ha]
    | cons b bs => simp [List.isPrefixOf, ih bs has]

theorem END_not_mem_results : END ∉ ascii "results " := by decide

theorem trim_results (p : List UInt8) (h : END ∉ p) :
    trim (ascii "results " ++ p ++ [END]) = p := by
  have h1 : TrimPrefix (ascii "results " ++ p ++ [END]) (ascii "results ") = p ++ [END] := by
    have hp : (ascii "results ").isPrefixOf (ascii "results " ++ (p ++ [END])) = true := by
      rw [List.isPrefixOf_iff_prefix]
      exact ⟨p ++ [END], rfl⟩
    rw [List.append_assoc]
    simp only [TrimPrefix, hp, if_true, List.drop_left]
  rw [trim, h1, TrimRight_append_END p END h]

theorem trim_other (r : List UInt8) (h : END ∉ r) (hpre : ¬ ascii "results " <+: r) :
    trim (r ++ [END]) = r := by
  have hp : (ascii "results ").isPrefixOf (r ++ [END]) = false := by
    rw [isPrefixOf_append_singleton _ _ _ END_not_mem_results]
    cases hq : (ascii "results ").isPrefixOf r with
    | false => rfl
    | true => exact absurd (List.isPrefixOf_iff_prefix.mp hq) hpre
  have h1 : TrimPrefix (r ++ [END]) (ascii "results ") = r ++ [END] := by
    simp [TrimPrefix, hp]
  rw [trim, h1, TrimRight_append_END r END h]

/-! ## Properties of the formatter -/

theorem doPrintf_loop_literal (a : List Operand) (n : Nat) :
    ∀ (f : List UInt8) (k : Nat) (ro : Bool), f.length ≤ n → (0x25 : UInt8) ∉ f →
      doPrintf.loop a n f k ro = f ++ extraArgs a k ro := by
  induction n with
  | zero =>
    intro f k ro hlen _
    have : f = [] := List.length_eq_zero.mp (Nat.le_zero.mp hlen)
    subst this
    simp [doPrintf.loop]
  | succ n ih =>
    intro f k ro hlen hf
    cases f with
    | nil => simp [doPrintf.loop]
    | cons c t =>
      have hc : c ≠ 0x25 := fun e => hf (by simp [e])
      have ht : (0x25 : UInt8) ∉ t := fun e => hf (by simp [e])
      have hl : t.length ≤ n := by simpa using hlen
      simp [doPrintf.loop, hc, ih t k ro hl ht]

/-- A format without a percent sign and without operands is written as it stands. -/
theorem doPrintf_literal (f : List UInt8) (h : (0x25 : UInt8) ∉ f) : doPrintf f [] = f := by
  simp [doPrintf, doPrintf_loop_literal [] _ f _ _ (Nat.le_refl _) h, extraArgs]

/-- The login format applied to a username and a password. -/
theorem doPrintf_login (u p : Operand) :
    doPrintf loginFormat [u, p] =
      ascii ("login \x7b\"protocol\":1,\"client\":\"go-vndb\",\"clientver\":0.1," ++
        "\"username\":\"") ++ (u.str ++ (ascii "\",\"password\":\"" ++ (p.str ++
          (ascii "\"\x7d" ++ [END])))) := by
  rfl

/-! ## The fuel of the format loop is enough -/

theorem parsenum_loop_length (s : List UInt8) :
    ∀ (num : Nat) (isnum : Bool), (parsenum.loop s num isnum).2.2.length ≤ s.length := by
  induction s with
  | nil => intro num isnum; simp [parsenum.loop]
  | cons c cs ih =>
    intro num isnum
    simp only [parsenum.loop]
    split
    · split
      · simp
      · exact Nat.le_succ_of_le (ih _ _)
    · exact Nat.le_refl _

theorem parsenum_length (s : List UInt8) : (parsenum s).2.2.length ≤ s.length :=
  parsenum_loop_length s 0 false

theorem argNumber_rest_length (numArgs : Nat) (sc : ppScan) :
    (argNumber numArgs sc).rest.length ≤ sc.rest.length := by
  simp only [argNumber]
  split
  · split
    · split <;> simp [List.length_drop]
    · simp_all
  · simp_all

theorem scanWidth_rest_length (numArgs : Nat) (sc : ppScan) :
    (scanWidth numArgs sc).rest.length ≤ sc.rest.length := by
  simp only [scanWidth]
  split
  · rename_i c t h
    split
    · simp [h]
    · exact parsenum_length _
  · exact parsenum_length _

theorem scanPrec_rest_length (numArgs : Nat) (sc : ppScan) :
    (scanPrec numArgs sc).rest.length ≤ sc.rest.length := by
  simp only [scanPrec]
  split
  · rename_i c t h
    split
    · have h1 := argNumber_rest_length numArgs
        { sc with rest := t, goodArgNum := sc.goodArgNum && !sc.afterIndex }
      have ht : t.length ≤ sc.rest.length := by simp [h]
      split
      · rename_i c1 t1 h2
        split
        · have : t1.length ≤ (argNumber numArgs
              { sc with rest := t, goodArgNum := sc.goodArgNum && !sc.afterIndex }).rest.length := by
            simp [h2]
          exact Nat.le_trans this (Nat.le_trans h1 ht)
        · exact Nat.le_trans (parsenum_length _) (Nat.le_trans h1 ht)
      · exact Nat.le_trans (parsenum_length _) (Nat.le_trans h1 ht)
    · exact Nat.le_refl _
  · exact Nat.le_refl _

theorem scanVerb_rest_length (a : List Operand) (flags : List UInt8) (sc : ppScan) :
    (scanVerb a flags sc).rest.length ≤ sc.rest.length := by
  simp only [scanVerb]
  split
  · simp_all
  · rename_i c t h
    have hd : ((c :: t).drop (DecodeRune (c :: t)).2).length ≤ sc.rest.length := by
      rw [h, List.length_drop]; omega
    split
    · exact hd
    · split
      · exact hd
      · split <;> exact hd

/-- A directive never leaves more of the format than it was given. -/
theorem directive_rest_length (a : List Operand) (argNum : Nat) (reordered : Bool)
    (f : List UInt8) : (directive a argNum reordered f).rest.length ≤ f.length := by
  have hdrop : (f.dropWhile isFlag).length ≤ f.length :=
    (List.dropWhile_sublist isFlag).length_le
  have hfull : ∀ sc0 : ppScan, sc0.rest = f.dropWhile isFlag →
      (scanVerb a (f.takeWhile isFlag)
        (if (scanPrec a.length (scanWidth a.length (argNumber a.length sc0))).afterIndex then
          scanPrec a.length (scanWidth a.length (argNumber a.length sc0))
        else argNumber a.length
          (scanPrec a.length (scanWidth a.length (argNumber a.length sc0))))).rest.length
        ≤ f.length := by
    intro sc0 h0
    have h1 := argNumber_rest_length a.length sc0
    have h2 := scanWidth_rest_length a.length (argNumber a.length sc0)
    have h3 := scanPrec_rest_length a.length (scanWidth a.length (argNumber a.length sc0))
    have h4 := argNumber_rest_length a.length
      (scanPrec a.length (scanWidth a.length (argNumber a.length sc0)))
    rw [h0] at h1
    refine Nat.le_trans (scanVerb_rest_length _ _ _) ?_
    split <;> omega
  simp only [directive]
  split
  · rename_i c t arg h _
    split
    · have : t.length ≤ (f.dropWhile isFlag).length := by simp [h]
      exact Nat.le_trans this hdrop
    · exact hfull _ rfl
  · exact hfull _ rfl

theorem doPrintf_loop_fuel (a : List Operand) (n : Nat) :
    ∀ (m : Nat) (f : List UInt8) (k : Nat) (ro : Bool), f.length ≤ n → f.length ≤ m →
      doPrintf.loop a n f k ro = doPrintf.loop a m f k ro := by
  induction n with
  | zero =>
    intro m f k ro hn _
    have : f = [] := List.length_eq_zero.mp (Nat.le_zero.mp hn)
    subst this
    cases m <;> simp [doPrintf.loop]
  | succ n ih =>
    intro m f k ro hn hm
    cases f with
    | nil => cases m <;> simp [doPrintf.loop]
    | cons c t =>
      cases m with
      | zero => simp at hm
      | succ m =>
        have hn1 : t.length ≤ n := by simpa using hn
        have hm1 : t.length ≤ m := by simpa using hm
        have hd := directive_rest_length a k ro t
        simp only [doPrintf.loop]
        split
        · rw [ih m _ _ _ (Nat.le_trans hd hn1) (Nat.le_trans hd hm1)]
        · rw [ih m _ _ _ hn1 hm1]

/-- The format loop never runs out of fuel: with any fuel of at least the length
of the format it gives the bytes doPrintf gives. -/
theorem doPrintf_fuel (a : List Operand) (format : List UInt8) (n : Nat)
    (h : format.length ≤ n) : doPrintf.loop a n format 0 false = doPrintf format a :=
  doPrintf_loop_fuel a n format.length format 0 false h (Nat.le_refl _)

/-! ## The fuel of the JSON reader is enough -/

theorem unquote_loop_fuel (n : Nat) :
    ∀ (m : Nat) (s : List UInt8), s.length ≤ n → s.length ≤ m →
      unquote.loop n s = unquote.loop m s := by
  induction n with
  | zero =>
    intro m s hn _
    have : s = [] := List.length_eq_zero.mp (Nat.le_zero.mp hn)
    subst this
    cases m <;> rfl
  | succ n ih =>
    intro m s hn hm
    cases s with
    | nil => cases m <;> rfl
    | cons c t =>
      cases m with
      | zero => simp at hm
      | succ m =>
        have hn1 : t.length ≤ n := by simpa using hn
        have hm1 : t.length ≤ m := by simpa using hm
        simp only [unquote.loop]
        cases unquote.step c t with
        | none => rfl
        | some r =>
          have hr : (t.drop (r.2 - 1)).length ≤ t.length := by
            rw [List.length_drop]; omega
          simp only [ih m _ (Nat.le_trans hr hn1) (Nat.le_trans hr hm1)]

/-- The loop of unquoteBytes never runs out of fuel. -/
theorem unquote_fuel (raw : List UInt8) (n : Nat) (h : raw.length ≤ n) :
    unquote.loop n raw = unquote raw :=
  unquote_loop_fuel n raw.length raw h (Nat.le_refl _)

theorem scanString_go_length (s : List UInt8) :
    ∀ (st : StringState) (r : List UInt8 × List UInt8),
      scanString.go st s = some r → r.2.length < s.length := by
  induction s with
  | nil => intro st r h; cases st <;> simp [scanString.go] at h
  | cons c t ih =>
    intro st r h
    have step : ∀ (st2 : StringState),
        (scanString.go st2 t).map (fun r => (c :: r.1, r.2)) = some r →
          r.2.length < (c :: t).length := by
      intro st2 h2
      cases hg : scanString.go st2 t with
      | none => rw [hg] at h2; exact Option.noConfusion h2
      | some q =>
        rw [hg] at h2
        have := ih st2 q hg
        cases h2
        simp only [List.length_cons]
        omega
    cases st with
    | plain =>
      simp only [scanString.go] at h
      split at h
      · cases h; simp
      · split at h
        · exact step _ h
        · split at h
          · exact Option.noConfusion h
          · exact step _ h
    | esc =>
      simp only [scanString.go] at h
      split at h
      · exact step _ h
      · split at h
        · exact step _ h
        · exact Option.noConfusion h
    | hex k =>
      simp only [scanString.go] at h
      split at h
      · exact step _ h
      · exact Option.noConfusion h

theorem parseScalar_length (s : List UInt8) (r : Value × List UInt8)
    (h : parseScalar s = some r) : r.2.length < s.length := by
  cases s with
  | nil => exact Option.noConfusion h
  | cons c t =>
    have hd : ∀ k : Nat, (t.drop k).length < (c :: t).length := by
      intro k; rw [List.length_drop, List.length_cons]; omega
    simp only [parseScalar] at h
    split at h
    · cases hs : scanString t with
      | none => rw [hs] at h; exact Option.noConfusion h
      | some q =>
        rw [hs] at h
        have := scanString_go_length t _ q hs
        simp only at h
        split at h
        · cases h
          simp only [List.length_cons]
          omega
        · exact Option.noConfusion h
    · split at h
      · split at h
        · cases h; exact hd _
        · exact Option.noConfusion h
      · split at h
        · cases h; exact hd _
        · split at h
          · cases h; exact hd _
          · split at h
            · cases h; exact hd _
            · exact Option.noConfusion h

theorem dropWhile_length_le (p : UInt8 → Bool) (s : List UInt8) :
    (s.dropWhile p).length ≤ s.length :=
  (List.dropWhile_sublist p).length_le

theorem parseKey_length (s : List UInt8) (r : List UInt8 × List UInt8)
    (h : parseKey s = some r) : r.2.length < s.length := by
  cases s with
  | nil => exact Option.noConfusion h
  | cons q t =>
    simp only [parseKey] at h
    split at h
    · exact Option.noConfusion h
    · cases hs : scanString t with
      | none => rw [hs] at h; exact Option.noConfusion h
      | some x =>
        rw [hs] at h
        have h1 := scanString_go_length t _ x hs
        have h2 := dropWhile_length_le isSpace x.2
        simp only at h
        split at h
        · rename_i key colon r1 _ hc
          split at h
          · exact Option.noConfusion h
          · cases h
            have h3 := dropWhile_length_le isSpace r1
            rw [hc] at h2
            simp only [List.length_cons] at h2 ⊢
            omega
        · exact Option.noConfusion h

theorem parseValue_zero (d : Nat) (s : List UInt8) : parseValue 0 d s = none := by
  rw [parseValue]

theorem parseElems_zero (d : Nat) (s : List UInt8) : parseElems 0 d s = none := by
  rw [parseElems]

theorem parseMembers_zero (d : Nat) (s : List UInt8) : parseMembers 0 d s = none := by
  rw [parseMembers]

theorem parseValue_fuel_step (m : Nat)
    (ihE : ∀ d s r, parseElems m d s = some r → r.2.length < s.length ∧
      ∀ n, 2 * (s.length - r.2.length) ≤ n → parseElems n d s = some r)
    (ihM : ∀ d s r, parseMembers m d s = some r → r.2.length < s.length ∧
      ∀ n, 2 * (s.length - r.2.length) ≤ n → parseMembers n d s = some r) :
    ∀ d s r, parseValue (m + 1) d s = some r → r.2.length < s.length ∧
      ∀ n, 2 * (s.length - r.2.length) ≤ n → parseValue n d s = some r := by
  intro d s r h
  cases s with
  | nil => rw [parseValue] at h; exact Option.noConfusion h
  | cons c t =>
    have hsp := dropWhile_length_le isSpace t
    rw [parseValue] at h
    try simp only at h
    by_cases h1 : (c == 0x7B) = true
    · rw [if_pos h1] at h
      by_cases h2 : maxNestingDepth ≤ d
      · rw [if_pos h2] at h; exact Option.noConfusion h
      · rw [if_neg h2] at h
        cases hdw : t.dropWhile isSpace with
        | nil => rw [hdw] at h; exact Option.noConfusion h
        | cons c1 t1 =>
          rw [hdw] at h hsp
          simp only [List.length_cons] at hsp
          try simp only at h
          by_cases h3 : (c1 == 0x7D) = true
          · rw [if_pos h3] at h
            cases h
            refine ⟨by simp only [List.length_cons]; omega, ?_⟩
            intro n hn
            obtain ⟨n1, rfl⟩ : ∃ n1, n = n1 + 1 :=
              ⟨n - 1, by simp only [List.length_cons] at hn; omega⟩
            rw [parseValue]
            simp only [h1, h2, hdw, h3, if_true, if_false, Bool.false_eq_true, reduceIte]
          · rw [if_neg h3] at h
            cases hq : parseMembers m (d + 1) (c1 :: t1) with
            | none => rw [hq] at h; exact Option.noConfusion h
            | some q =>
              rw [hq] at h
              cases h
              obtain ⟨hl, hsuf⟩ := ihM _ _ _ hq
              simp only [List.length_cons] at hl
              refine ⟨by simp only [List.length_cons]; omega, ?_⟩
              intro n hn
              obtain ⟨n1, rfl⟩ : ∃ n1, n = n1 + 1 :=
                ⟨n - 1, by simp only [List.length_cons] at hn; omega⟩
              have := hsuf n1 (by simp only [List.length_cons] at hn ⊢; omega)
              rw [parseValue]
              simp only [h1, h2, hdw, h3, this, if_true, if_false, Bool.false_eq_true, reduceIte]
    · rw [if_neg h1] at h
      by_cases h4 : (c == 0x5B) = true
      · rw [if_pos h4] at h
        by_cases h2 : maxNestingDepth ≤ d
        · rw [if_pos h2] at h; exact Option.noConfusion h
        · rw [if_neg h2] at h
          cases hdw : t.dropWhile isSpace with
          | nil => rw [hdw] at h; exact Option.noConfusion h
          | cons c1 t1 =>
            rw [hdw] at h hsp
            simp only [List.length_cons] at hsp
            try simp only at h
            by_cases h3 : (c1 == 0x5D) = true
            · rw [if_pos h3] at h
              cases h
              refine ⟨by simp only [List.length_cons]; omega, ?_⟩
              intro n hn
              obtain ⟨n1, rfl⟩ : ∃ n1, n = n1 + 1 :=
                ⟨n - 1, by simp only [List.length_cons] at hn; omega⟩
              rw [parseValue]
              simp only [h1, h4, h2, hdw, h3, if_true, if_false, Bool.false_eq_true, reduceIte]
            · rw [if_neg h3] at h
              cases hq : parseElems m (d + 1) (c1 :: t1) with
              | none => rw [hq] at h; exact Option.noConfusion h
              | some q =>
                rw [hq] at h
                cases h
                obtain ⟨hl, hsuf⟩ := ihE _ _ _ hq
                simp only [List.length_cons] at hl
                refine ⟨by simp only [List.length_cons]; omega, ?_⟩
                intro n hn
                obtain ⟨n1, rfl⟩ : ∃ n1, n = n1 + 1 :=
                  ⟨n - 1, by simp only [List.length_cons] at hn; omega⟩
                have := hsuf n1 (by simp only [List.length_cons] at hn ⊢; omega)
                rw [parseValue]
                simp only [h1, h4, h2, hdw, h3, this, if_true, if_false, Bool.false_eq_true, reduceIte]
      · rw [if_neg h4] at h
        have hl := parseScalar_length _ _ h
        refine ⟨hl, ?_⟩
        intro n hn
        obtain ⟨n1, rfl⟩ : ∃ n1, n = n1 + 1 := ⟨n - 1, by omega⟩
        rw [parseValue]
        simp only [h1, h4, h, if_false, Bool.false_eq_true, reduceIte]

theorem parseElems_fuel_step (m : Nat)
    (ihV : ∀ d s r, parseValue m d s = some r → r.2.length < s.length ∧
      ∀ n, 2 * (s.length - r.2.length) ≤ n → parseValue n d s = some r)
    (ihE : ∀ d s r, parseElems m d s = some r → r.2.length < s.length ∧
      ∀ n, 2 * (s.length - r.2.length) ≤ n → parseElems n d s = some r) :
    ∀ d s r, parseElems (m + 1) d s = some r → r.2.length < s.length ∧
      ∀ n, 2 * (s.length - r.2.length) ≤ n → parseElems n d s = some r := by
  intro d s r h
  rw [parseElems] at h
  cases hv : parseValue m d s with
  | none => rw [hv] at h; exact Option.noConfusion h
  | some q =>
    rw [hv] at h
    obtain ⟨hvl, hvs⟩ := ihV _ _ _ hv
    have hsp := dropWhile_length_le isSpace q.2
    try simp only at h
    cases hdw : q.2.dropWhile isSpace with
    | nil => rw [hdw] at h; exact Option.noConfusion h
    | cons c t =>
      rw [hdw] at h hsp
      simp only [List.length_cons] at hsp
      try simp only at h
      have hsp2 := dropWhile_length_le isSpace t
      by_cases h1 : (c == 0x2C) = true
      · rw [if_pos h1] at h
        cases hq : parseElems m d (t.dropWhile isSpace) with
        | none => rw [hq] at h; exact Option.noConfusion h
        | some q2 =>
          rw [hq] at h
          cases h
          obtain ⟨hl, hsuf⟩ := ihE _ _ _ hq
          refine ⟨by simp only; omega, ?_⟩
          intro n hn
          obtain ⟨n1, rfl⟩ : ∃ n1, n = n1 + 1 := ⟨n - 1, by simp only at hn; omega⟩
          have e1 := hvs n1 (by simp only at hn; omega)
          have e2 := hsuf n1 (by simp only at hn; omega)
          rw [parseElems]
          simp only [e1, hdw, h1, e2, if_true]
      · rw [if_neg h1] at h
        by_cases h2 : (c == 0x5D) = true
        · rw [if_pos h2] at h
          cases h
          refine ⟨by simp only; omega, ?_⟩
          intro n hn
          obtain ⟨n1, rfl⟩ : ∃ n1, n = n1 + 1 := ⟨n - 1, by simp only at hn; omega⟩
          have e1 := hvs n1 (by simp only at hn; omega)
          rw [parseElems]
          simp only [e1, hdw, h1, h2, if_true, if_false, Bool.false_eq_true, reduceIte]
        · rw [if_neg h2] at h; exact Option.noConfusion h

theorem parseMembers_fuel_step (m : Nat)
    (ihV : ∀ d s r, parseValue m d s = some r → r.2.length < s.length ∧
      ∀ n, 2 * (s.length - r.2.length) ≤ n → parseValue n d s = some r)
    (ihM : ∀ d s r, parseMembers m d s = some r → r.2.length < s.length ∧
      ∀ n, 2 * (s.length - r.2.length) ≤ n → parseMembers n d s = some r) :
    ∀ d s r, parseMembers (m + 1) d s = some r → r.2.length < s.length ∧
      ∀ n, 2 * (s.length - r.2.length) ≤ n → parseMembers n d s = some r := by
  intro d s r h
  rw [parseMembers] at h
  cases hk : parseKey s with
  | none => rw [hk] at h; exact Option.noConfusion h
  | some k =>
    rw [hk] at h
    have hkl := parseKey_length _ _ hk
    try simp only at h
    cases hv : parseValue m d k.2 with
    | none => rw [hv] at h; exact Option.noConfusion h
    | some q =>
      rw [hv] at h
      obtain ⟨hvl, hvs⟩ := ihV _ _ _ hv
      have hsp := dropWhile_length_le isSpace q.2
      try simp only at h
      cases hdw : q.2.dropWhile isSpace with
      | nil => rw [hdw] at h; exact Option.noConfusion h
      | cons c t =>
        rw [hdw] at h hsp
        simp only [List.length_cons] at hsp
        try simp only at h
        have hsp2 := dropWhile_length_le isSpace t
        by_cases h1 : (c == 0x2C) = true
        · rw [if_pos h1] at h
          cases hq : parseMembers m d (t.dropWhile isSpace) with
          | none => rw [hq] at h; exact Option.noConfusion h
          | some q2 =>
            rw [hq] at h
            cases h
            obtain ⟨hl, hsuf⟩ := ihM _ _ _ hq
            refine ⟨by simp only; omega, ?_⟩
            intro n hn
            obtain ⟨n1, rfl⟩ : ∃ n1, n = n1 + 1 := ⟨n - 1, by simp only at hn; omega⟩
            have e1 := hvs n1 (by simp only at hn; omega)
            have e2 := hsuf n1 (by simp only at hn; omega)
            rw [parseMembers]
            simp only [hk, e1, hdw, h1, e2, if_true]
        · rw [if_neg h1] at h
          by_cases h2 : (c == 0x7D) = true
          · rw [if_pos h2] at h
            cases h
            refine ⟨by simp only; omega, ?_⟩
            intro n hn
            obtain ⟨n1, rfl⟩ : ∃ n1, n = n1 + 1 := ⟨n - 1, by simp only at hn; omega⟩
            have e1 := hvs n1 (by simp only at hn; omega)
            rw [parseMembers]
            simp only [hk, e1, hdw, h1, h2, if_true, if_false, Bool.false_eq_true, reduceIte]
          · rw [if_neg h2] at h; exact Option.noConfusion h

/-- A value, a list of elements or a list of members read with some fuel is
read with any fuel of at least twice the number of bytes it takes up. -/
theorem parse_fuel (m : Nat) :
    (∀ d s r, parseValue m d s = some r → r.2.length < s.length ∧
      ∀ n, 2 * (s.length - r.2.length) ≤ n → parseValue n d s = some r) ∧
    (∀ d s r, parseElems m d s = some r → r.2.length < s.length ∧
      ∀ n, 2 * (s.length - r.2.length) ≤ n → parseElems n d s = some r) ∧
    (∀ d s r, parseMembers m d s = some r → r.2.length < s.length ∧
      ∀ n, 2 * (s.length - r.2.length) ≤ n → parseMembers n d s = some r) := by
  induction m with
  | zero =>
    refine ⟨?_, ?_, ?_⟩
    · intro d s r h; rw [parseValue_zero] at h; exact Option.noConfusion h
    · intro d s r h; rw [parseElems_zero] at h; exact Option.noConfusion h
    · intro d s r h; rw [parseMembers_zero] at h; exact Option.noConfusion h
  | succ m ih =>
    exact ⟨parseValue_fuel_step m ih.2.1 ih.2.2, parseElems_fuel_step m ih.1 ih.2.1,
      parseMembers_fuel_step m ih.1 ih.2.2⟩

/-- The reader of parseJSON never runs out of fuel: any larger fuel reads the
same value. -/
theorem parseValue_fuel (data : List UInt8) (m : Nat) (hm : 2 * data.length + 2 ≤ m) :
    parseValue m 0 (data.dropWhile isSpace) =
      parseValue (2 * data.length + 2) 0 (data.dropWhile isSpace) := by
  have hsp := dropWhile_length_le isSpace data
  cases h : parseValue m 0 (data.dropWhile isSpace) with
  | some r => exact ((parse_fuel m).1 _ _ _ h).2 _ (by omega) |>.symm
  | none =>
    cases h0 : parseValue (2 * data.length + 2) 0 (data.dropWhile isSpace) with
    | none => rfl
    | some r =>
      have := ((parse_fuel _).1 _ _ _ h0).2 m (by omega)
      rw [h] at this
      exact this

/-! ## The library models on documented examples -/

/-- The examples of the documentation of package fmt for format errors: a verb
without operand, an operand without verb, a percent sign at the end of the
format, a star that finds no integer, and a doubled percent sign. -/
theorem doPrintf_documented :
    doPrintf (ascii "hi%d") [] = ascii "hi%!d(MISSING)" ∧
      doPrintf (ascii "hi") [⟨ascii "guys", fun _ => []⟩] = ascii "hi%!(EXTRA string=guys)" ∧
      doPrintf (ascii "%") [] = ascii "%!(NOVERB)" ∧
      doPrintf (ascii "%*s") [⟨ascii "x", fun _ => []⟩, ⟨ascii "hi", fun _ => []⟩] =
        ascii "%!(BADWIDTH)hi" ∧
      doPrintf (ascii "%[3]s") [] = ascii "%!s(BADINDEX)" ∧
      doPrintf (ascii "100%%") [] = ascii "100%" := by
  decide

/-- The decoder on small documents: keys are matched without regard to case,
unknown keys are skipped, a value of the wrong type is a type error that
leaves the other fields stored, and text that is no JSON value is a syntax
error that stores nothing. -/
theorem Unmarshal_small_documents :
    (Unmarshal (ascii "\x7b\"NUM\":3,\"More\":true,\"extra\":[1,2]\x7d") VNResponse.zero).2 = none ∧
      (Unmarshal (ascii "\x7b\"NUM\":3,\"More\":true,\"extra\":[1,2]\x7d") VNResponse.zero).1.Num = 3 ∧
      (Unmarshal (ascii "\x7b\"NUM\":3,\"More\":true,\"extra\":[1,2]\x7d") VNResponse.zero).1.More
        = true ∧
      (Unmarshal (ascii "\x7b\"num\":\"3\",\"more\":true\x7d") VNResponse.zero).2 =
        some .UnmarshalTypeError ∧
      (Unmarshal (ascii "\x7b\"num\":\"3\",\"more\":true\x7d") VNResponse.zero).1.More = true ∧
      (Unmarshal (ascii "\x7b\"num\":1.5\x7d") VNResponse.zero).2 = some .UnmarshalTypeError ∧
      (Unmarshal (ascii "[]") VNResponse.zero).2 = some .UnmarshalTypeError ∧
      (Unmarshal (ascii "\x7b\"num\":1,\x7d") VNResponse.zero).2 = some .SyntaxError ∧
      (Unmarshal (ascii "\x7b\"num\":01\x7d") VNResponse.zero).2 = some .SyntaxError ∧
      (Unmarshal (ascii "") VNResponse.zero).2 = some .SyntaxError ∧
      (Unmarshal (ascii " null ") VNResponse.zero).2 = none := by
  decide

/-! ## Login -/

/-- Login past its validation of the credentials. -/
theorem Login_nonempty (other : List UInt8 → Directive → List UInt8) (c : Connection)
    (username password : List UInt8) (hu : username ≠ []) (hp : password ≠ []) :
    Login other c username password =
      match (ReadString END c.sock.incoming).2.1 with
      | some err =>
        (⟨⟨c.sock.written ++ doPrintf loginFormat [⟨username, other username⟩, ⟨password, other password⟩],
            (ReadString END c.sock.incoming).2.2⟩⟩,
          some (ascii "Login(): error reading reply: %s" ++ err.Error))
      | none =>
        if (ReadString END c.sock.incoming).1 != ascii "ok" ++ [END] then
          (⟨⟨c.sock.written ++ doPrintf loginFormat [⟨username, other username⟩, ⟨password, other password⟩],
            (ReadString END c.sock.incoming).2.2⟩⟩,
            some (ascii "Login(): error logging in: %s" ++ (ReadString END c.sock.incoming).1))
        else
          (⟨⟨c.sock.written ++ doPrintf loginFormat [⟨username, other username⟩, ⟨password, other password⟩],
            (ReadString END c.sock.incoming).2.2⟩⟩, none) := by
  have h0 : (username.length == 0 || password.length == 0) = false := by
    simp [hu, hp]
  unfold Login
  rw [h0]
  rfl

/-- C2: for a non-empty username and password, Login appends to the socket
exactly the login command with the two credentials copied in verbatim,
followed by the sentinel byte, and nothing else. -/
theorem Login_writes_command (other : List UInt8 → Directive → List UInt8) (c : Connection)
    (username password : List UInt8) (hu : username ≠ []) (hp : password ≠ []) :
    (Login other c username password).1.sock.written =
      c.sock.written ++
        (ascii ("login \x7b\"protocol\":1,\"client\":\"go-vndb\",\"clientver\":0.1," ++
            "\"username\":\"") ++ username ++ ascii "\",\"password\":\"" ++ password ++
          ascii "\"\x7d" ++ [END]) := by
  rw [Login_nonempty other c username password hu hp, doPrintf_login]
  split <;> [skip; split] <;> simp only [List.append_assoc]

/-- Witness for C2. -/
theorem Login_writes_command_witness :
    (Login (fun _ _ => []) ⟨⟨[], ascii "ok\x04"⟩⟩ (ascii "100%s") (ascii "\"\x04")).1.sock.written =
      [] ++ (ascii ("login \x7b\"protocol\":1,\"client\":\"go-vndb\",\"clientver\":0.1," ++
            "\"username\":\"") ++ ascii "100%s" ++ ascii "\",\"password\":\"" ++ ascii "\"\x04" ++
          ascii "\"\x7d" ++ [END]) :=
  Login_writes_command (fun _ _ => []) ⟨⟨[], ascii "ok\x04"⟩⟩ (ascii "100%s") (ascii "\"\x04")
    (by decide) (by decide)

/-- C3: when the username or the password is empty, Login returns an error
and leaves the socket untouched: nothing is written and nothing is read. -/
theorem Login_empty_credential (other : List UInt8 → Directive → List UInt8) (c : Connection)
    (username password : List UInt8) (h : username = [] ∨ password = []) :
    (Login other c username password).2 = some (ascii "Login(): zero length credential supplied") ∧
      (Login other c username password).1 = c := by
  have h0 : (username.length == 0 || password.length == 0) = true := by
    rcases h with h | h <;> simp [h]
  simp [Login, h0]

/-- Witness for C3. -/
theorem Login_empty_credential_witness :
    (Login (fun _ _ => []) ⟨⟨ascii "old", ascii "ok\x04"⟩⟩ [] (ascii "x")).2 =
        some (ascii "Login(): zero length credential supplied") ∧
      (Login (fun _ _ => []) ⟨⟨ascii "old", ascii "ok\x04"⟩⟩ [] (ascii "x")).1 =
        ⟨⟨ascii "old", ascii "ok\x04"⟩⟩ :=
  Login_empty_credential (fun _ _ => []) ⟨⟨ascii "old", ascii "ok\x04"⟩⟩ [] (ascii "x")
    (Or.inl rfl)

/-- C1: for a non-empty username and password and a reply stream whose first
sentinel follows the bytes body, Login returns nil exactly when the reply is
"ok" and the sentinel; for every other reply it returns the error whose text is
"Login(): error logging in: %s" followed by the raw reply, sentinel included. -/
theorem Login_reply (other : List UInt8 → Directive → List UInt8) (c : Connection)
    (username password body rest : List UInt8) (hu : username ≠ []) (hp : password ≠ [])
    (hs : c.sock.incoming = body ++ END :: rest) (hbody : END ∉ body) :
    ((Login other c username password).2 = none ↔ body ++ [END] = ascii "ok" ++ [END]) ∧
      (body ++ [END] ≠ ascii "ok" ++ [END] →
        (Login other c username password).2 =
            some (ascii "Login(): error logging in: %s" ++ (body ++ [END])) ∧
          ∃ e pre post, (Login other c username password).2 = some e ∧
            e = pre ++ (body ++ [END]) ++ post) := by
  obtain ⟨r1, r2⟩ := ReadString_found END body rest hbody
  have hL : (Login other c username password).2 =
      if body ++ [END] = ascii "ok" ++ [END] then none
      else some (ascii "Login(): error logging in: %s" ++ (body ++ [END])) := by
    rw [Login_nonempty other c username password hu hp, hs, r1, r2]
    by_cases hok : body ++ [END] = ascii "ok" ++ [END]
    · rw [if_pos hok, if_neg (by rw [hok]; exact fun h => by simp at h)]
    · rw [if_neg hok, if_pos (by simpa using hok)]
  rw [hL]
  by_cases hok : body ++ [END] = ascii "ok" ++ [END]
  · rw [if_pos hok]
    exact ⟨⟨fun _ => hok, fun _ => rfl⟩, fun h => absurd hok h⟩
  · rw [if_neg hok]
    refine ⟨⟨fun h => Option.noConfusion h, fun h => absurd h hok⟩, fun _ => ⟨rfl, ?_⟩⟩
    exact ⟨_, ascii "Login(): error logging in: %s", [], rfl, (List.append_nil _).symm⟩

/-- Witness for C1. -/
theorem Login_reply_witness :
    ((Login (fun _ _ => []) ⟨⟨[], ascii "error \"bad\"\x04"⟩⟩ (ascii "u") (ascii "p")).2 = none ↔
        ascii "error \"bad\"" ++ [END] = ascii "ok" ++ [END]) ∧
      (ascii "error \"bad\"" ++ [END] ≠ ascii "ok" ++ [END] →
        (Login (fun _ _ => []) ⟨⟨[], ascii "error \"bad\"\x04"⟩⟩ (ascii "u") (ascii "p")).2 =
            some (ascii "Login(): error logging in: %s" ++ (ascii "error \"bad\"" ++ [END])) ∧
          ∃ e pre post,
            (Login (fun _ _ => []) ⟨⟨[], ascii "error \"bad\"\x04"⟩⟩ (ascii "u") (ascii "p")).2 =
              some e ∧ e = pre ++ (ascii "error \"bad\"" ++ [END]) ++ post) :=
  Login_reply (fun _ _ => []) ⟨⟨[], ascii "error \"bad\"\x04"⟩⟩ (ascii "u") (ascii "p")
    (ascii "error \"bad\"") [] (by decide) (by decide) (by decide) (by decide)

/-! ## DBStats -/

/-- C9: for a reply stream whose first sentinel follows the bytes body, DBStats
writes exactly "dbstats" and the sentinel, and returns the reply up to and
including that sentinel, unmodified: body, which holds no sentinel, and the
sentinel after it.  Nothing is printed. -/
theorem DBStats_reply (c : Connection) (body rest : List UInt8)
    (hs : c.sock.incoming = body ++ END :: rest) (hbody : END ∉ body) :
    (DBStats c).conn.sock.written = c.sock.written ++ (ascii "dbstats" ++ [END]) ∧
      (DBStats c).reply = body ++ [END] ∧ (DBStats c).stdout = [] := by
  obtain ⟨r1, r2⟩ := ReadString_found END body rest hbody
  refine ⟨?_, ?_, ?_⟩ <;> simp only [DBStats, Conn.Write, Fprint, hs, r1, r2]

/-- Witness for C9. -/
theorem DBStats_reply_witness :
    (DBStats ⟨⟨[], ascii "results \x7b\"users\":4\x7d\x04ok\x04"⟩⟩).conn.sock.written =
        [] ++ (ascii "dbstats" ++ [END]) ∧
      (DBStats ⟨⟨[], ascii "results \x7b\"users\":4\x7d\x04ok\x04"⟩⟩).reply =
        ascii "results \x7b\"users\":4\x7d" ++ [END] ∧
      (DBStats ⟨⟨[], ascii "results \x7b\"users\":4\x7d\x04ok\x04"⟩⟩).stdout = [] :=
  DBStats_reply ⟨⟨[], ascii "results \x7b\"users\":4\x7d\x04ok\x04"⟩⟩
    (ascii "results \x7b\"users\":4\x7d") (ascii "ok\x04") (by decide) (by decide)

/-- C8, as the code has it: for a reply stream that ends without a sentinel,
DBStats returns the truncated bytes themselves, the whole stream, as its
string result; the read failure shows only in the line "Error reading" printed
on standard output and in the result not ending with the sentinel. -/
theorem DBStats_truncated (c : Connection) (h : END ∉ c.sock.incoming) :
    (DBStats c).reply = c.sock.incoming ∧ (DBStats c).stdout = ascii "Error reading\n" ∧
      ∀ p : List UInt8, (DBStats c).reply ≠ p ++ [END] := by
  obtain ⟨r1, r2⟩ := ReadString_eof END c.sock.incoming h
  have hr : (DBStats c).reply = c.sock.incoming := by
    simp only [DBStats, Conn.Write, r1, r2]
  refine ⟨hr, ?_, ?_⟩
  · simp only [DBStats, Conn.Write, r1, r2]
  · intro p hp
    rw [hr] at hp
    exact h (by rw [hp]; simp)

/-- Witness for the amended C8. -/
theorem DBStats_truncated_witness :
    (DBStats ⟨⟨[], ascii "results \x7b\"users\":4"⟩⟩).reply = ascii "results \x7b\"users\":4" ∧
      (DBStats ⟨⟨[], ascii "results \x7b\"users\":4"⟩⟩).stdout = ascii "Error reading\n" ∧
      ∀ p : List UInt8, (DBStats ⟨⟨[], ascii "results \x7b\"users\":4"⟩⟩).reply ≠ p ++ [END] :=
  DBStats_truncated ⟨⟨[], ascii "results \x7b\"users\":4"⟩⟩ (by decide)

/-- Counterexample to C8: on the truncated stream `results {"users":4` the
caller of DBStats gets no error, only a string, and that string is the
truncated stream. -/
theorem DBStats_truncated_counterexample :
    END ∉ ascii "results \x7b\"users\":4" ∧
      DBStats ⟨⟨[], ascii "results \x7b\"users\":4"⟩⟩ =
        ⟨⟨⟨ascii "dbstats\x04", []⟩⟩, ascii "results \x7b\"users\":4", ascii "Error reading\n"⟩ := by
  decide

/-! ## trim -/

/-- C6: for a payload without a sentinel byte, trim of the reply
"results " ++ p ++ sentinel is p, so wrapping the result again gives back the
reply byte for byte; the payload may be empty or itself begin with "results ". -/
theorem trim_roundtrip (p : List UInt8) (h : END ∉ p) :
    trim (ascii "results " ++ p ++ [END]) = p ∧
      ascii "results " ++ trim (ascii "results " ++ p ++ [END]) ++ [END] =
        ascii "results " ++ p ++ [END] := by
  rw [trim_results p h]
  exact ⟨rfl, rfl⟩

/-- Witness for C6. -/
theorem trim_roundtrip_witness :
    trim (ascii "results " ++ ascii "results \x7b\x7d" ++ [END]) = ascii "results \x7b\x7d" ∧
      ascii "results " ++ trim (ascii "results " ++ ascii "results \x7b\x7d" ++ [END]) ++ [END] =
        ascii "results " ++ ascii "results \x7b\x7d" ++ [END] :=
  trim_roundtrip (ascii "results \x7b\x7d") (by decide)

/-! ## GetVN -/

/-- GetVN when the read fails. -/
theorem GetVN_read_error (c : Connection) (id : List UInt8) (e : ReadError) (hid : id ≠ [])
    (h : (ReadSlice END c.sock.incoming).2.1 = some e) :
    (GetVN c id).2 = (VNResponse.zero, some (.read e)) := by
  unfold GetVN
  rw [if_neg hid]
  simp only [Conn.Write, h]

/-- GetVN when a reply was read. -/
theorem GetVN_decoded (c : Connection) (id : List UInt8) (hid : id ≠ [])
    (h : (ReadSlice END c.sock.incoming).2.1 = none) :
    (GetVN c id).2 =
      ((Unmarshal (trim (ReadSlice END c.sock.incoming).1) VNResponse.zero).1,
        (Unmarshal (trim (ReadSlice END c.sock.incoming).1) VNResponse.zero).2.map
          (GetVNError.unmarshal (trim (ReadSlice END c.sock.incoming).1))) := by
  unfold GetVN
  rw [if_neg hid]
  simp only [Conn.Write, h]
  split <;> rename_i he <;> simp [he]

/-- What GetVN writes. -/
theorem GetVN_written (c : Connection) (id : List UInt8) (hid : id ≠ []) :
    (GetVN c id).1.sock.written = c.sock.written ++
      doPrintf (ascii "get vn basic,details (id = " ++ id ++ ascii ")" ++ [END]) [] := by
  unfold GetVN
  rw [if_neg hid]
  simp only [Conn.Write]
  split <;> [skip; split] <;> rfl

/-- For an id without a percent sign GetVN writes the command with the id
copied in, and the sentinel. -/
theorem GetVN_writes_plain_id (c : Connection) (id : List UInt8) (hid : id ≠ [])
    (hpc : (0x25 : UInt8) ∉ id) :
    (GetVN c id).1.sock.written = c.sock.written ++
      (ascii "get vn basic,details (id = " ++ id ++ ascii ")" ++ [END]) := by
  rw [GetVN_written c id hid, doPrintf_literal]
  intro hm
  simp only [List.mem_append] at hm
  rcases hm with ((hm | hm) | hm) | hm
  · exact absurd hm (by decide)
  · exact hpc hm
  · exact absurd hm (by decide)
  · exact absurd hm (by decide)

/-- C5 fails on the code: the id is part of the format string of Fprintf, so for
the id `%d` GetVN writes `get vn basic,details (id = %!d(MISSING))` and the
sentinel, not the command with the id in it. -/
theorem GetVN_percent_id :
    (GetVN ⟨⟨[], exampleReply⟩⟩ (ascii "%d")).1.sock.written =
        ascii "get vn basic,details (id = %!d(MISSING))" ++ [END] ∧
      (GetVN ⟨⟨[], exampleReply⟩⟩ (ascii "%d")).1.sock.written ≠
        ascii "get vn basic,details (id = " ++ ascii "%d" ++ ascii ")" ++ [END] := by
  decide

/-- For a labelled reply that fits the buffer of the reader, GetVN returns what
decoding the payload gives. -/
theorem GetVN_short_reply (c : Connection) (id doc rest : List UInt8) (hid : id ≠ [])
    (hs : c.sock.incoming = ascii "results " ++ doc ++ END :: rest) (hdoc : END ∉ doc)
    (hlen : (ascii "results " ++ doc).length < defaultBufSize) :
    (GetVN c id).2 = ((Unmarshal doc VNResponse.zero).1,
      (Unmarshal doc VNResponse.zero).2.map (GetVNError.unmarshal doc)) := by
  have hnm : END ∉ ascii "results " ++ doc := by
    intro hm
    rcases List.mem_append.mp hm with hm | hm
    · exact END_not_mem_results hm
    · exact hdoc hm
  have hR := ReadSlice_found END _ rest hnm hlen
  rw [← hs] at hR
  have h1 : (ReadSlice END c.sock.incoming).2.1 = none := by rw [hR]
  rw [GetVN_decoded c id hid h1, hR]
  simp only [trim_results doc hdoc]

/-- The example of the specification: the labelled reply with one item decodes,
and the title of the item is Example. -/
theorem GetVN_example :
    (GetVN ⟨⟨[], exampleReply⟩⟩ (ascii "11")).2.2 = none ∧
      (GetVN ⟨⟨[], exampleReply⟩⟩ (ascii "11")).2.1.Items.elems.map (fun i => (i.ID, i.Title)) =
        [(11, ascii "Example")] ∧
      (GetVN ⟨⟨[], exampleReply⟩⟩ (ascii "11")).2.1.Num = 1 := by
  decide

/-- C4 fails on the code: the reply `results ` ++ longDocument ++ sentinel holds
no other sentinel and its payload decodes without error into a record with the
title Example, but it is longer than the buffer of the reader, so GetVN returns
the read error ErrBufferFull and an empty record. -/
theorem GetVN_long_reply :
    END ∉ longDocument ∧ (Unmarshal longDocument VNResponse.zero).2 = none ∧
      (Unmarshal longDocument VNResponse.zero).1.Items.elems.map (fun i => i.Title) =
        [ascii "Example"] ∧
      (GetVN ⟨⟨[], ascii "results " ++ longDocument ++ [END]⟩⟩ (ascii "11")).2 =
        (VNResponse.zero, some (.read .ErrBufferFull)) :=
  ⟨by decide!, by decide!, by decide!,
    GetVN_read_error _ _ _ (by decide) (by decide!)⟩

theorem readPrefix_not_unmarshal (x : List UInt8) :
    ¬ ascii "GetVN(): Error unmarshalling JSON: " <+:
      ascii "GetVN(): Error reading string from connection: " ++ x := by
  intro h
  have h2 := List.isPrefixOf_iff_prefix.mpr h
  exact Bool.noConfusion (h2.symm.trans (by rfl :
    (ascii "GetVN(): Error unmarshalling JSON: ").isPrefixOf
      (ascii "GetVN(): Error reading string from connection: " ++ x) = false))

theorem unmarshalPrefix_not_read (x : List UInt8) :
    ¬ ascii "GetVN(): Error reading string from connection: " <+:
      ascii "GetVN(): Error unmarshalling JSON: " ++ x := by
  intro h
  have h2 := List.isPrefixOf_iff_prefix.mpr h
  exact Bool.noConfusion (h2.symm.trans (by rfl :
    (ascii "GetVN(): Error reading string from connection: ").isPrefixOf
      (ascii "GetVN(): Error unmarshalling JSON: " ++ x) = false))

/-- C7: for a non-empty id and a reply stream that ends without a sentinel,
GetVN returns a read error and the record untouched, nothing having been
decoded; the text of the error begins with
"GetVN(): Error reading string from connection: ".  For every input the text
of a read error begins with that prefix and not with
"GetVN(): Error unmarshalling JSON: ", and the text of a decoding error the
other way round. -/
theorem GetVN_truncated (c : Connection) (id : List UInt8) (hid : id ≠ [])
    (h : END ∉ c.sock.incoming) :
    (∃ e, (GetVN c id).2 = (VNResponse.zero, some (.read e)) ∧
      ∀ jsonErrorText, ascii "GetVN(): Error reading string from connection: " <+:
        (GetVNError.read e).Error jsonErrorText) ∧
    (∀ (jsonErrorText : List UInt8 → List UInt8) (e : ReadError) (data : List UInt8)
        (je : JSONError),
      (ascii "GetVN(): Error reading string from connection: " <+:
          (GetVNError.read e).Error jsonErrorText ∧
        ¬ ascii "GetVN(): Error unmarshalling JSON: " <+:
          (GetVNError.read e).Error jsonErrorText) ∧
      (ascii "GetVN(): Error unmarshalling JSON: " <+:
          (GetVNError.unmarshal data je).Error jsonErrorText ∧
        ¬ ascii "GetVN(): Error reading string from connection: " <+:
          (GetVNError.unmarshal data je).Error jsonErrorText)) := by
  constructor
  · by_cases hlen : c.sock.incoming.length < defaultBufSize
    · refine ⟨.EOF, GetVN_read_error c id _ hid ?_, fun _ => ⟨_, rfl⟩⟩
      rw [ReadSlice_eof END _ h hlen]
    · refine ⟨.ErrBufferFull, GetVN_read_error c id _ hid ?_, fun _ => ⟨_, rfl⟩⟩
      rw [ReadSlice_full END _ (fun hm => h (List.mem_of_mem_take hm)) (Nat.le_of_not_lt hlen)]
  · intro jt e data je
    exact ⟨⟨⟨_, rfl⟩, readPrefix_not_unmarshal _⟩, ⟨⟨_, rfl⟩, unmarshalPrefix_not_read _⟩⟩

/-- Witness for C7. -/
theorem GetVN_truncated_witness :
    (∃ e, (GetVN ⟨⟨[], ascii "results \x7b\"num\":1,"⟩⟩ (ascii "11")).2 =
        (VNResponse.zero, some (.read e)) ∧
      ∀ jsonErrorText, ascii "GetVN(): Error reading string from connection: " <+:
        (GetVNError.read e).Error jsonErrorText) ∧
    (∀ (jsonErrorText : List UInt8 → List UInt8) (e : ReadError) (data : List UInt8)
        (je : JSONError),
      (ascii "GetVN(): Error reading string from connection: " <+:
          (GetVNError.read e).Error jsonErrorText ∧
        ¬ ascii "GetVN(): Error unmarshalling JSON: " <+:
          (GetVNError.read e).Error jsonErrorText) ∧
      (ascii "GetVN(): Error unmarshalling JSON: " <+:
          (GetVNError.unmarshal data je).Error jsonErrorText ∧
        ¬ ascii "GetVN(): Error reading string from connection: " <+:
          (GetVNError.unmarshal data je).Error jsonErrorText)) :=
  GetVN_truncated ⟨⟨[], ascii "results \x7b\"num\":1,"⟩⟩ (ascii "11") (by decide) (by decide)

/-- Counterexample to C10: the reply `{"num":1,"more":false,"items":[]}` and
sentinel does not begin with the label, yet GetVN reports success, with the
record decoded from it. -/
theorem GetVN_bare_reply_counterexample :
    ¬ ascii "results " <+: bareReply ∧
      (GetVN ⟨⟨[], bareReply⟩⟩ (ascii "11")).2.2 = none ∧
      (GetVN ⟨⟨[], bareReply⟩⟩ (ascii "11")).2.1.Num = 1 ∧
      (GetVN ⟨⟨[], ascii "null\x04"⟩⟩ (ascii "11")).2.2 = none := by
  refine ⟨?_, by decide, by decide, by decide⟩
  intro h
  exact absurd (List.isPrefixOf_iff_prefix.mpr h) (by decide)

/-- C10, as the code has it: for a non-empty id and a reply whose content r,
the bytes before the first sentinel, does not begin with the label, GetVN
decodes r itself.  It reports success exactly when the reply fits the buffer
of the reader and r decodes without error, and then returns the record decoded
from r; when the reply fits the buffer and r does not decode, it returns the
decoding error for r. -/
theorem GetVN_unlabelled_reply (c : Connection) (id r rest : List UInt8) (hid : id ≠ [])
    (hs : c.sock.incoming = r ++ END :: rest) (hr : END ∉ r)
    (hpre : ¬ ascii "results " <+: r) :
    ((GetVN c id).2.2 = none ↔
        r.length < defaultBufSize ∧ (Unmarshal r VNResponse.zero).2 = none) ∧
      (r.length < defaultBufSize →
        (GetVN c id).2 = ((Unmarshal r VNResponse.zero).1,
          (Unmarshal r VNResponse.zero).2.map (GetVNError.unmarshal r))) := by
  by_cases hlen : r.length < defaultBufSize
  · have hR := ReadSlice_found END r rest hr hlen
    rw [← hs] at hR
    have h1 : (ReadSlice END c.sock.incoming).2.1 = none := by rw [hR]
    have hG := GetVN_decoded c id hid h1
    rw [hR] at hG
    simp only [trim_other r hr hpre] at hG
    refine ⟨?_, fun _ => hG⟩
    rw [hG]
    cases (Unmarshal r VNResponse.zero).2 <;> simp [hlen]
  · have hnm : END ∉ c.sock.incoming.take defaultBufSize := by
      rw [hs, List.take_append_of_le_length (Nat.le_of_not_lt hlen)]
      exact fun hm => hr (List.mem_of_mem_take hm)
    have hl : defaultBufSize ≤ c.sock.incoming.length := by
      rw [hs, List.length_append]
      omega
    have hG := GetVN_read_error c id .ErrBufferFull hid
      (by rw [ReadSlice_full END _ hnm hl])
    refine ⟨?_, fun h => absurd h hlen⟩
    rw [hG]
    simp [hlen]

/-- Witness for the amended C10. -/
theorem GetVN_unlabelled_reply_witness :
    ((GetVN ⟨⟨[], ascii "error \x7b\"id\":\"parse\"\x7d\x04"⟩⟩ (ascii "11")).2.2 = none ↔
        (ascii "error \x7b\"id\":\"parse\"\x7d").length < defaultBufSize ∧
          (Unmarshal (ascii "error \x7b\"id\":\"parse\"\x7d") VNResponse.zero).2 = none) ∧
      ((ascii "error \x7b\"id\":\"parse\"\x7d").length < defaultBufSize →
        (GetVN ⟨⟨[], ascii "error \x7b\"id\":\"parse\"\x7d\x04"⟩⟩ (ascii "11")).2 =
          ((Unmarshal (ascii "error \x7b\"id\":\"parse\"\x7d") VNResponse.zero).1,
            (Unmarshal (ascii "error \x7b\"id\":\"parse\"\x7d") VNResponse.zero).2.map
              (GetVNError.unmarshal (ascii "error \x7b\"id\":\"parse\"\x7d")))) :=
  GetVN_unlabelled_reply ⟨⟨[], ascii "error \x7b\"id\":\"parse\"\x7d\x04"⟩⟩ (ascii "11")
    (ascii "error \x7b\"id\":\"parse\"\x7d") [] (by decide) (by decide) (by decide)
    (fun h => absurd (List.isPrefixOf_iff_prefix.mpr h) (by decide))

/-- Replies without the label that are no JSON documents, such as an error
reply or ok, end in a decoding error. -/
theorem GetVN_error_reply :
    (GetVN ⟨⟨[], ascii "error \x7b\"id\":\"parse\"\x7d\x04"⟩⟩ (ascii "11")).2.2 =
        some (.unmarshal (ascii "error \x7b\"id\":\"parse\"\x7d") .SyntaxError) ∧
      (GetVN ⟨⟨[], ascii "ok\x04"⟩⟩ (ascii "11")).2.2 =
        some (.unmarshal (ascii "ok") .SyntaxError) := by
  decide

end GoVNDB
